import Mathlib

/-!
# A verification development for `github.com/mdm-code/scanner`

Shallow embedding of `scanner.go`.

* Bytes are natural numbers (a Go `byte` is a natural below 256; no theorem
  below needs the bound); a `[]byte` and a Go `string` are both lists of bytes.
* Go `int` is modelled as `Int` with two's complement wrap-around at 64 bits
  (`wrapInt`); `rune` values are integers. The length of a Go slice is an
  `int`, so theorems about sums of offsets take `len(Buffer) <= maxInt` as a
  hypothesis.
* A run-time panic of the Go runtime (index or slice bounds, `make` with a
  negative length or a length beyond the allocation limit) is an
  `Except.error`.
* `utf8.DecodeRune` and `utf8.AppendRune` of the Go standard library are
  transcribed from the library: the `first` table, the `acceptRanges` table,
  the decoder and the encoder.
* The loop of `ScanAll` is run on fuel; `scanLoop_total` shows that the fuel
  `len(Buffer) + 1` is never exhausted.
-/

namespace scanner

/-! ## Go runtime: panics, machine integers, slices -/

/-- Run-time panics the scanner's code can raise. -/
inductive Panic where
  | indexOutOfRange
  | sliceBoundsOutOfRange
  | makesliceLenOutOfRange
  deriving DecidableEq, Repr

/-- Largest value of a 64-bit Go `int`. -/
def maxInt : Int := 9223372036854775807

/-- Smallest value of a 64-bit Go `int`. -/
def minInt : Int := -9223372036854775808

/-- Two's complement wrap-around of a mathematical integer into a 64-bit `int`. -/
def wrapInt (x : Int) : Int :=
  (x + 9223372036854775808) % 18446744073709551616 - 9223372036854775808

/-- Go `a + b` on `int`: overflow wraps around silently. -/
def addInt (a b : Int) : Int := wrapInt (a + b)

/-- Go `b[i]` on a byte slice: panics unless `0 <= i < len(b)`. -/
def index (b : List Nat) (i : Int) : Except Panic Nat :=
  if i < 0 then .error .indexOutOfRange
  else
    match b.get? i.toNat with
    | some x => .ok x
    | none => .error .indexOutOfRange

/-- Go `b[lo:]` on a byte slice: panics unless `0 <= lo <= len(b)`. -/
def sliceFrom (b : List Nat) (lo : Int) : Except Panic (List Nat) :=
  if lo < 0 ∨ (b.length : Int) < lo then .error .sliceBoundsOutOfRange
  else .ok (b.drop lo.toNat)

/-- Go `b[lo:hi]` on a byte slice: panics unless `0 <= lo <= hi <= cap(b)`.
The capacity is taken to be `len(b)`: `Peek`, the only caller, slices after it
has checked `hi <= len(b)`, so bytes beyond the length are never reached. -/
def slice (b : List Nat) (lo hi : Int) : Except Panic (List Nat) :=
  if lo < 0 ∨ hi < lo ∨ (b.length : Int) < hi then .error .sliceBoundsOutOfRange
  else .ok ((b.drop lo.toNat).take (hi.toNat - lo.toNat))

/-! ## Go standard library: `unicode/utf8` -/

/-- The constant `utf8.RuneError`, U+FFFD. -/
def RuneError : Nat := 0xFFFD

/-- The constant `utf8.RuneSelf`. -/
def RuneSelf : Nat := 0x80

/-- The constant `utf8.MaxRune`. -/
def MaxRune : Nat := 0x10FFFF

def surrogateMin : Nat := 0xD800
def surrogateMax : Nat := 0xDFFF

def t2 : Nat := 0xC0
def tx : Nat := 0x80
def t3 : Nat := 0xE0
def t4 : Nat := 0xF0

def maskx : Nat := 0x3F
def mask2 : Nat := 0x1F
def mask3 : Nat := 0x0F
def mask4 : Nat := 0x07

def rune1Max : Nat := 0x7F
def rune2Max : Nat := 0x7FF
def rune3Max : Nat := 0xFFFF

def locb : Nat := 0x80
def hicb : Nat := 0xBF

/-- Invalid: size 1. -/
def xx : Nat := 0xF1
/-- ASCII: size 1. -/
def as : Nat := 0xF0
/-- Accept 0, size 2. -/
def s1 : Nat := 0x02
/-- Accept 1, size 3. -/
def s2 : Nat := 0x13
/-- Accept 0, size 3. -/
def s3 : Nat := 0x03
/-- Accept 2, size 3. -/
def s4 : Nat := 0x23
/-- Accept 3, size 4. -/
def s5 : Nat := 0x34
/-- Accept 0, size 4. -/
def s6 : Nat := 0x04
/-- Accept 4, size 4. -/
def s7 : Nat := 0x44

/-- The table `first` of `unicode/utf8`: information about the first byte of a
UTF-8 sequence, 256 entries. -/
def firstTable : List Nat :=
  List.replicate 128 as ++            -- 0x00-0x7F
  List.replicate 64 xx ++             -- 0x80-0xBF
  [xx, xx] ++ List.replicate 14 s1 ++ -- 0xC0-0xCF
  List.replicate 16 s1 ++             -- 0xD0-0xDF
  [s2, s3, s3, s3, s3, s3, s3, s3, s3, s3, s3, s3, s3, s4, s3, s3] ++ -- 0xE0-0xEF
  [s5, s6, s6, s6, s7, xx, xx, xx, xx, xx, xx, xx, xx, xx, xx, xx]    -- 0xF0-0xFF

/-- The lookup `first[b]` for a byte `b`. -/
def first (b : Nat) : Nat := firstTable.getD b xx

/-- The table `acceptRanges` of `unicode/utf8`: the range `(lo, hi)` of valid
second bytes; entries 5 to 15 are zero. -/
def acceptRanges (i : Nat) : Nat × Nat :=
  match i with
  | 0 => (locb, hicb)
  | 1 => (0xA0, hicb)
  | 2 => (locb, 0x9F)
  | 3 => (0x90, hicb)
  | 4 => (locb, 0x8F)
  | _ => (0, 0)

/-- Go `utf8.DecodeRune(p)`: the first rune of `p` and its width in bytes;
`(RuneError, 0)` on empty input and `(RuneError, 1)` on an invalid or truncated
sequence. The branch-free `mask` of the library (all ones when the low bit of
`x` is set, zero otherwise) is written as the test on that bit. The reads
`p[1]`, `p[2]`, `p[3]` come after the check `n < sz` and are in range. -/
def DecodeRune (p : List Nat) : Nat × Nat :=
  let n := p.length
  if n < 1 then (RuneError, 0)
  else
    let p0 := p.getD 0 0
    let x := first p0
    if x ≥ as then
      if x % 2 = 1 then (RuneError, 1) else (p0, 1)
    else
      let sz := x &&& 7
      let accept := acceptRanges (x >>> 4)
      if n < sz then (RuneError, 1)
      else
        let b1 := p.getD 1 0
        if b1 < accept.1 ∨ accept.2 < b1 then (RuneError, 1)
        else if sz ≤ 2 then (((p0 &&& mask2) <<< 6) ||| (b1 &&& maskx), 2)
        else
          let b2 := p.getD 2 0
          if b2 < locb ∨ hicb < b2 then (RuneError, 1)
          else if sz ≤ 3 then
            (((p0 &&& mask3) <<< 12) ||| ((b1 &&& maskx) <<< 6) ||| (b2 &&& maskx), 3)
          else
            let b3 := p.getD 3 0
            if b3 < locb ∨ hicb < b3 then (RuneError, 1)
            else
              (((p0 &&& mask4) <<< 18) ||| ((b1 &&& maskx) <<< 12) |||
                ((b2 &&& maskx) <<< 6) ||| (b3 &&& maskx), 4)

/-- Go `byte(r)` for a non-negative rune: the low eight bits. -/
def toByte (r : Nat) : Nat := r % 256

/-- Go `utf8.AppendRune(nil, r)` for a non-negative rune `r`: the UTF-8
encoding of `r`; a surrogate or a value above `MaxRune` is encoded as
`RuneError`. -/
def EncodeRune (r : Nat) : List Nat :=
  if r ≤ rune1Max then [toByte r]
  else if r ≤ rune2Max then [t2 ||| toByte (r >>> 6), tx ||| (toByte r &&& maskx)]
  else if r > MaxRune ∨ (surrogateMin ≤ r ∧ r ≤ surrogateMax) then
    [t3 ||| toByte (RuneError >>> 12), tx ||| (toByte (RuneError >>> 6) &&& maskx),
      tx ||| (toByte RuneError &&& maskx)]
  else if r ≤ rune3Max then
    [t3 ||| toByte (r >>> 12), tx ||| (toByte (r >>> 6) &&& maskx), tx ||| (toByte r &&& maskx)]
  else
    [t4 ||| toByte (r >>> 18), tx ||| (toByte (r >>> 12) &&& maskx),
      tx ||| (toByte (r >>> 6) &&& maskx), tx ||| (toByte r &&& maskx)]

/-- The UTF-8 encoding of a sequence of runes (Go `[]byte(string(runes))`). -/
def encodeRunes (cs : List Nat) : List Nat :=
  match cs with
  | [] => []
  | c :: rest => EncodeRune c ++ encodeRunes rest

/-- A Unicode scalar value: at most U+10FFFF and not a surrogate. -/
def isScalar (c : Nat) : Prop := c ≤ MaxRune ∧ ¬ (surrogateMin ≤ c ∧ c ≤ surrogateMax)

instance (c : Nat) : Decidable (isScalar c) := by unfold isScalar; infer_instance

/-! ## The package `scanner` -/

/-- The errors of the package and of the reader handed to `New`. -/
inductive Error where
  | ErrNilIOReader
  | ErrRuneError
  | readError (msg : String)
  deriving DecidableEq, Repr

/-- Go `type Pos struct { Rune rune; Start, End int }`. -/
structure Pos where
  Rune : Int
  Start : Int
  End : Int
  deriving DecidableEq, Repr

/-- Go `type Token struct { Pos; Buffer *[]byte }`: the pointer is represented
by the buffer it points to, `none` is the nil pointer. -/
structure Token extends Pos where
  Buffer : Option (List Nat)
  deriving DecidableEq, Repr

/-- Go `type Scanner struct { Buffer []byte; Errors []error; Cursor Pos }`. -/
structure Scanner where
  Buffer : List Nat
  Errors : List Error
  Cursor : Pos
  deriving DecidableEq, Repr

/-- Go `var Zero = Pos{Rune: 0, Start: 0, End: 0}`. -/
def Zero : Pos := { Rune := 0, Start := 0, End := 0 }

/-- An `io.Reader` as `io.ReadAll` sees it: the bytes it delivers and the error
(if any) that ends the reading. -/
structure Reader where
  data : List Nat
  err : Option Error
  deriving DecidableEq, Repr

/-- Go `io.ReadAll(r)`: the bytes read and the error that stopped the reading. -/
def ReadAll (r : Reader) : List Nat × Option Error := (r.data, r.err)

/-- Go `New(r io.Reader) (*Scanner, error)`; `none` is the nil interface value. -/
def New (r : Option Reader) : Except Error Scanner :=
  match r with
  | none => .error .ErrNilIOReader
  | some rd =>
    match ReadAll rd with
    | (_, some e) => .error e
    | (buf, none) => .ok { Cursor := Zero, Buffer := buf, Errors := [] }

/-- Go `func (t Token) Position() Pos`. -/
def Token.Position (t : Token) : Pos :=
  { Rune := t.Rune, Start := t.Start, End := t.End }

/-- Go `func (s *Scanner) Reset()`. -/
def Scanner.Reset (s : Scanner) : Scanner :=
  { s with Cursor := Zero, Errors := [] }

/-- Go `func (s *Scanner) Goto(t Token)`. -/
def Scanner.Goto (s : Scanner) (t : Token) : Scanner :=
  { s with Cursor := t.Position }

/-- Go `func (s *Scanner) Token() Token`. -/
def Scanner.Token (s : Scanner) : scanner.Token :=
  { toPos := s.Cursor, Buffer := some s.Buffer }

/-- Go `func (s *Scanner) Errored() bool`. -/
def Scanner.Errored (s : Scanner) : Bool :=
  if s.Errors.length > 0 then true else false

/-- Go `func (s *Scanner) Scan() bool`: the returned boolean and the scanner
after the call, or the panic raised. -/
def Scanner.Scan (s : Scanner) : Except Panic (Bool × Scanner) :=
  if s.Cursor.End ≥ (s.Buffer.length : Int) then .ok (false, s)
  else
    match index s.Buffer s.Cursor.End with
    | .error e => .error e
    | .ok b =>
      if b ≥ RuneSelf then
        match sliceFrom s.Buffer s.Cursor.End with
        | .error e => .error e
        | .ok tail =>
          let (r, size) := DecodeRune tail
          if r = RuneError then
            .ok (false, { s with Errors := s.Errors ++ [Error.ErrRuneError] })
          else
            .ok (true, { s with Cursor :=
              { Rune := (r : Int), Start := s.Cursor.End,
                End := addInt s.Cursor.End (size : Int) } })
      else
        .ok (true, { s with Cursor :=
          { Rune := (b : Int), Start := s.Cursor.End, End := addInt s.Cursor.End 1 } })

/-- Go `func (s *Scanner) Peek(v string) bool`: the returned boolean (the
scanner is not written to), or the panic raised. -/
def Scanner.Peek (s : Scanner) (v : List Nat) : Except Panic Bool :=
  if addInt (v.length : Int) s.Cursor.End > (s.Buffer.length : Int) then .ok false
  else
    let start := s.Cursor.End
    let end_ := addInt s.Cursor.End (v.length : Int)
    match slice s.Buffer start end_ with
    | .error e => .error e
    | .ok bytes => if bytes = v then .ok true else .ok false

/-- The size of a `Token` in bytes on a 64-bit platform: the rune padded to
eight bytes, two `int` and a pointer. -/
def tokenSize : Int := 32

/-- The constant `maxAlloc` of the Go runtime on a 64-bit platform with 48
address bits: the largest size of a single allocation. -/
def maxAlloc : Int := 281474976710656

/-- Go `make([]Token, n)`: a slice of length `n` of zero-valued tokens. The
runtime (`makeslice`) panics with `len out of range` when `n` is negative or
when `n` tokens take more than `maxAlloc` bytes. (A machine that runs out of
memory below that limit is not modelled.) -/
def makeTokens (n : Int) : Except Panic (List Token) :=
  if n < 0 ∨ tokenSize * n > maxAlloc then .error .makesliceLenOutOfRange
  else .ok (List.replicate n.toNat { Rune := 0, Start := 0, End := 0, Buffer := none })

/-- The loop `for s.Scan() { t := s.Token(); result = append(result, t) }`, run
for at most `fuel` calls of `Scan`: `none` when the fuel runs out, otherwise the
final `result` and scanner, or the panic raised. -/
def scanLoop (fuel : Nat) (s : Scanner) (result : List Token) :
    Option (Except Panic (List Token × Scanner)) :=
  match fuel with
  | 0 => none
  | fuel + 1 =>
    match s.Scan with
    | .error e => some (.error e)
    | .ok (false, s1) => some (.ok (result, s1))
    | .ok (true, s1) => scanLoop fuel s1 (result ++ [s1.Token])

/-- Go `func (s *Scanner) ScanAll() ([]Token, bool)`, its loop run for at most
`fuel` calls of `Scan`: the returned slice and flag and the scanner after the
call. -/
def Scanner.ScanAllFuel (fuel : Nat) (s : Scanner) :
    Option (Except Panic (List scanner.Token × Bool × Scanner)) :=
  match makeTokens s.Cursor.End with
  | .error e => some (.error e)
  | .ok result =>
    match scanLoop fuel s result with
    | none => none
    | some (.error e) => some (.error e)
    | some (.ok (result1, s1)) =>
      if s1.Errored then some (.ok (result1, false, s1))
      else some (.ok (result1, true, s1))

/-- The fuel that `ScanAll` and the manual loop never exhaust: one call of
`Scan` per byte of the buffer and the call that ends the loop. -/
def loopFuel (s : Scanner) : Nat := s.Buffer.length + 1

/-- Go `func (s *Scanner) ScanAll() ([]Token, bool)`. -/
def Scanner.ScanAll (s : Scanner) :
    Option (Except Panic (List scanner.Token × Bool × Scanner)) :=
  Scanner.ScanAllFuel (loopFuel s) s

/-- The manual loop `ts := []Token{}; for s.Scan() { ts = append(ts, s.Token()) }`. -/
def Scanner.ScanLoop (s : Scanner) : Option (Except Panic (List scanner.Token × Scanner)) :=
  scanLoop (loopFuel s) s []

/-! ## Expected results used in the statements -/

/-- The scanner `New` returns for a reader that delivers `buf` without error. -/
def fresh (buf : List Nat) : Scanner := { Cursor := Zero, Buffer := buf, Errors := [] }

/-- The cursor expected after `k` successful scans of a buffer of one-byte
characters: `Zero` before the first scan, then `Pos{Buffer[k-1], k-1, k}`. -/
def asciiCursor (buf : List Nat) (k : Nat) : Pos :=
  match k with
  | 0 => Zero
  | j + 1 => { Rune := (buf.getD j 0 : Nat), Start := (j : Nat), End := ((j + 1 : Nat) : Int) }

/-- The token expected for the one-byte character at offset `i` of `buf`. -/
def asciiToken (buf : List Nat) (i : Nat) : Token :=
  { Rune := (buf.getD i 0 : Nat), Start := (i : Nat), End := ((i + 1 : Nat) : Int),
    Buffer := some buf }

/-- The tokens `{Buffer[i], i, i+1}` for `i = 0 .. len(buf)-1`, in order. -/
def asciiTokens (buf : List Nat) : List Token :=
  (List.range buf.length).map (asciiToken buf)

/-- The encoded width of the runes `cs`, in bytes. -/
def encodedWidth (cs : List Nat) : Nat := (encodeRunes cs).length

/-- The token expected for the `i`-th rune of `cs` in the buffer `buf`: it
starts at the total encoded width of the runes before it and spans its own
encoded width. -/
def runeToken (buf : List Nat) (cs : List Nat) (i : Nat) : Token :=
  { Rune := (cs.getD i 0 : Nat),
    Start := (encodedWidth (cs.take i) : Nat),
    End := ((encodedWidth (cs.take i) + (EncodeRune (cs.getD i 0)).length : Nat) : Int),
    Buffer := some buf }

/-- The runes of `.transaction[].status.` followed by U+67F3, the input of
`TestScannerScan`. -/
def sampleRunes : List Nat :=
  [0x2E, 0x74, 0x72, 0x61, 0x6E, 0x73, 0x61, 0x63, 0x74, 0x69, 0x6F, 0x6E, 0x5B, 0x5D, 0x2E,
   0x73, 0x74, 0x61, 0x74, 0x75, 0x73, 0x2E, 0x67F3]

/-! ## `fmt.Sprintf` and the text rendering -/

/-- An operand handed to `fmt.Sprintf`. -/
inductive Arg where
  | rune (r : Int)
  | int (n : Int)
  deriving DecidableEq, Repr

/-- The decimal digits of a natural number, as ASCII bytes. -/
def decimalNat (n : Nat) : List Nat := (Nat.toDigits 10 n).map Char.toNat

/-- The verb `%d` of `fmt` on an `int`: an optional minus sign and the decimal
digits. -/
def fmtD (n : Int) : List Nat :=
  if n < 0 then 0x2D :: decimalNat (-n).toNat else decimalNat n.toNat

/-- The verb `%c` of `fmt` on a `rune`: the UTF-8 encoding of the code point,
U+FFFD for a value that is not a valid code point. -/
def fmtC (r : Int) : List Nat :=
  if r < 0 then EncodeRune RuneError else EncodeRune r.toNat

/-- One verb of `fmt.Sprintf` applied to its operand. Only `%c` on a rune and
`%d` on an int, the uses of `Pos.String`, are rendered as the library does; for
any other pairing the bad-verb text of the library is abbreviated to the bytes
`%!` followed by the verb (`Pos.String` never reaches it). -/
def formatVerb (verb : Nat) (a : Arg) : List Nat :=
  match a with
  | .rune r => if verb = 0x63 then fmtC r else [0x25, 0x21, verb]
  | .int n => if verb = 0x64 then fmtD n else [0x25, 0x21, verb]

/-- Go `fmt.Sprintf(format, args...)` on a format of literal bytes and verbs
`%c`, `%d`: literal bytes are copied, each verb consumes one operand. -/
def Sprintf : List Nat → List Arg → List Nat
  | [], _ => []
  | [b], _ => [b]
  | b :: v :: rest, args =>
    if b = 0x25 then
      match args with
      | a :: args1 => formatVerb v a ++ Sprintf rest args1
      | [] => [0x25, 0x21, v] ++ Sprintf rest []
    else b :: Sprintf (v :: rest) args

/-- The format string `"{ %c %d:%d }"` of `Pos.String`, as bytes. -/
def posFormat : List Nat :=
  [0x7B, 0x20, 0x25, 0x63, 0x20, 0x25, 0x64, 0x3A, 0x25, 0x64, 0x20, 0x7D]

/-- Go `func (p Pos) String() string`. -/
def Pos.String (p : Pos) : List Nat :=
  Sprintf posFormat [Arg.rune p.Rune, Arg.int p.Start, Arg.int p.End]

/-- The method `String` of a `Token`: `Token` embeds `Pos`, so the call is
promoted to `t.Pos.String()`. -/
def Token.String (t : Token) : List Nat := t.toPos.String

/-! ## Sequences of calls -/

/-- `n` consecutive calls `s.Scan()`, each followed by `s.Token()`: the boolean
and the token of every call and the scanner after the last one, or the panic. -/
def scanSeq : Nat → Scanner → Except Panic (List (Bool × Token) × Scanner)
  | 0, s => .ok ([], s)
  | n + 1, s =>
    match s.Scan with
    | .error e => .error e
    | .ok (b, s1) =>
      match scanSeq n s1 with
      | .error e => .error e
      | .ok (rest, s2) => .ok ((b, s1.Token) :: rest, s2)

/-- A call of one of the methods of a `Scanner`. -/
inductive Op where
  | Scan
  | ScanAll
  | Peek (v : List Nat)
  | Reset
  | Goto (t : Token)
  | Token
  deriving DecidableEq, Repr

/-- A scanner in use: its state and the tokens it has handed out so far, by
`Token()` and in the slices returned by `ScanAll`. -/
structure Session where
  scanner : Scanner
  emitted : List Token
  deriving DecidableEq, Repr

/-- The session that starts with the scanner `New` returns for the bytes `buf`. -/
def Session.start (buf : List Nat) : Session := { scanner := fresh buf, emitted := [] }

/-- One call on the scanner of a session; `none` when the call panics. -/
def Session.step (σ : Session) (op : Op) : Option Session :=
  match op with
  | .Scan =>
    match σ.scanner.Scan with
    | .ok (_, s1) => some { σ with scanner := s1 }
    | .error _ => none
  | .ScanAll =>
    match σ.scanner.ScanAll with
    | some (.ok (toks, _, s1)) => some { scanner := s1, emitted := σ.emitted ++ toks }
    | _ => none
  | .Peek v =>
    match σ.scanner.Peek v with
    | .ok _ => some σ
    | .error _ => none
  | .Reset => some { σ with scanner := σ.scanner.Reset }
  | .Goto t => some { σ with scanner := σ.scanner.Goto t }
  | .Token => some { σ with emitted := σ.emitted ++ [σ.scanner.Token] }

/-- A sequence of calls on the scanner of a session; `none` when a call panics. -/
def Session.run (σ : Session) : List Op → Option Session
  | [] => some σ
  | op :: rest =>
    match σ.step op with
    | some σ1 => σ1.run rest
    | none => none

/-- Every `Goto` of the sequence is to a token whose `End` is within the buffer. -/
def gotosInBounds (buf : List Nat) (ops : List Op) : Bool :=
  ops.all (fun op =>
    match op with
    | .Goto t => decide (t.End ≤ (buf.length : Int))
    | _ => true)

/-- Every `Goto` of the sequence, run from the session `σ`, is to a token the
scanner has handed out before that call. -/
def gotosEmitted (σ : Session) : List Op → Bool
  | [] => true
  | op :: rest =>
    (match op with
      | .Goto t => decide (t ∈ σ.emitted)
      | _ => true) &&
    (match σ.step op with
      | some σ1 => gotosEmitted σ1 rest
      | none => true)

/-- The cursor sits on a character boundary of `buf`: it is `Zero`, or it spans
the UTF-8 encoding, one to four bytes inside the buffer, of its rune, which is
not U+FFFD. -/
def onBoundary (buf : List Nat) (p : Pos) : Prop :=
  p = Zero ∨
    (0 ≤ p.Start ∧ p.Start < p.End ∧ p.End ≤ (buf.length : Int) ∧
      1 ≤ p.End - p.Start ∧ p.End - p.Start ≤ 4 ∧
      0 ≤ p.Rune ∧ p.Rune ≠ (RuneError : Int) ∧
      (buf.drop p.Start.toNat).take (p.End - p.Start).toNat = EncodeRune p.Rune.toNat)

end scanner

/-! # Theorems -/

set_option maxRecDepth 100000

namespace scanner

/-! ## Bit operations as arithmetic -/

theorem shl_lor (a i b : Nat) (hb : b < 2 ^ i) : (a <<< i) ||| b = a * 2 ^ i + b := by
  rw [Nat.shiftLeft_eq, Nat.mul_comm a, (Nat.mul_add_lt_is_or hb a).symm]

theorem and_maskx (b : Nat) : b &&& maskx = b % 64 := Nat.and_pow_two_sub_one_eq_mod b 6

theorem and_mask2 (b : Nat) : b &&& mask2 = b % 32 := Nat.and_pow_two_sub_one_eq_mod b 5

theorem and_mask3 (b : Nat) : b &&& mask3 = b % 16 := Nat.and_pow_two_sub_one_eq_mod b 4

theorem and_mask4 (b : Nat) : b &&& mask4 = b % 8 := Nat.and_pow_two_sub_one_eq_mod b 3

/-- The rune assembled from a two-byte sequence. -/
theorem value2 (p0 b1 : Nat) :
    ((p0 &&& mask2) <<< 6) ||| (b1 &&& maskx) = p0 % 32 * 64 + b1 % 64 := by
  rw [and_maskx, and_mask2, shl_lor _ _ _ (by omega)]; rfl

/-- The rune assembled from a three-byte sequence. -/
theorem value3 (p0 b1 b2 : Nat) :
    ((p0 &&& mask3) <<< 12) ||| ((b1 &&& maskx) <<< 6) ||| (b2 &&& maskx) =
      p0 % 16 * 4096 + b1 % 64 * 64 + b2 % 64 := by
  rw [and_maskx, and_maskx, and_mask3, Nat.lor_assoc, shl_lor (b1 % 64) 6 _ (by omega),
    shl_lor _ 12 _ (by omega)]
  omega

/-- The rune assembled from a four-byte sequence. -/
theorem value4 (p0 b1 b2 b3 : Nat) :
    ((p0 &&& mask4) <<< 18) ||| ((b1 &&& maskx) <<< 12) ||| ((b2 &&& maskx) <<< 6) |||
      (b3 &&& maskx) = p0 % 8 * 262144 + b1 % 64 * 4096 + b2 % 64 * 64 + b3 % 64 := by
  rw [and_maskx, and_maskx, and_maskx, and_mask4, Nat.lor_assoc, Nat.lor_assoc,
    shl_lor (b2 % 64) 6 _ (by omega), shl_lor (b1 % 64) 12 _ (by omega),
    shl_lor _ 18 _ (by omega)]
  omega

theorem or_t2 (x : Nat) (h : x < 32) : t2 ||| x = 0xC0 + x := by
  have := shl_lor 6 5 x (by omega)
  simpa [t2] using this

theorem or_tx (x : Nat) (h : x < 64) : tx ||| x = 0x80 + x := by
  have := shl_lor 2 6 x (by omega)
  simpa [tx] using this

theorem or_t3 (x : Nat) (h : x < 16) : t3 ||| x = 0xE0 + x := by
  have := shl_lor 14 4 x (by omega)
  simpa [t3] using this

theorem or_t4 (x : Nat) (h : x < 8) : t4 ||| x = 0xF0 + x := by
  have := shl_lor 30 3 x (by omega)
  simpa [t4] using this

/-- A continuation byte carries six bits of the rune. -/
theorem cont_byte (r : Nat) : tx ||| (toByte r &&& maskx) = 0x80 + r % 64 := by
  rw [and_maskx, or_tx _ (by omega)]; unfold toByte; omega

/-! ## The table `first` -/

theorem firstTable_length : firstTable.length = 256 := by decide

theorem first_of_ge (b : Nat) (h : 256 ≤ b) : first b = xx := by
  unfold first
  rw [List.getD_eq_default]
  rw [firstTable_length]; exact h

/-- The table `first`, read by ranges of the leading byte. -/
theorem first_cases : ∀ b, b < 256 → first b =
    if b < 0x80 then as else if b < 0xC2 then xx else if b < 0xE0 then s1
    else if b = 0xE0 then s2 else if b = 0xED then s4 else if b < 0xF0 then s3
    else if b = 0xF0 then s5 else if b < 0xF4 then s6 else if b = 0xF4 then s7 else xx := by
  decide

theorem first_ascii (b : Nat) (h : b < 0x80) : first b = 0xF0 := by
  rw [first_cases b (by omega), if_pos h]; rfl

theorem first_two (b : Nat) (h : 0xC2 ≤ b) (h' : b ≤ 0xDF) : first b = 0x02 := by
  rw [first_cases b (by omega), if_neg (by omega), if_neg (by omega), if_pos (by omega)]; rfl

theorem first_three (b : Nat) (h : 0xE0 ≤ b) (h' : b ≤ 0xEF) :
    first b = if b = 0xE0 then 0x13 else if b = 0xED then 0x23 else 0x03 := by
  rw [first_cases b (by omega), if_neg (by omega), if_neg (by omega), if_neg (by omega)]
  by_cases h1 : b = 0xE0
  · rw [if_pos h1, if_pos h1]; rfl
  · rw [if_neg h1, if_neg h1]
    by_cases h2 : b = 0xED
    · rw [if_pos h2, if_pos h2]; rfl
    · rw [if_neg h2, if_neg h2, if_pos (by omega)]; rfl

theorem first_four (b : Nat) (h : 0xF0 ≤ b) (h' : b ≤ 0xF4) :
    first b = if b = 0xF0 then 0x34 else if b = 0xF4 then 0x44 else 0x04 := by
  rw [first_cases b (by omega), if_neg (by omega), if_neg (by omega), if_neg (by omega),
    if_neg (by omega), if_neg (by omega), if_neg (by omega)]
  by_cases h1 : b = 0xF0
  · rw [if_pos h1, if_pos h1]; rfl
  · rw [if_neg h1, if_neg h1]
    by_cases h2 : b = 0xF4
    · subst h2; rfl
    · rw [if_neg h2, if_pos (by omega), if_neg h2]; rfl

/-- A leading byte at or above 0x80 whose entry is a one-byte entry is invalid
(`xx`, low bit set); an entry below `as` announces a width of at least two. -/
theorem first_facts : ∀ b, b < 256 →
    ((first b ≥ as → first b % 2 ≠ 1 → b < 0x80) ∧ (first b < as → 2 ≤ first b &&& 7)) := by
  decide

theorem first_high (b : Nat) (h : 0x80 ≤ b) (hx : first b ≥ as) : first b % 2 = 1 := by
  by_cases hb : b < 256
  · by_contra hodd
    have := (first_facts b hb).1 hx hodd
    omega
  · rw [first_of_ge b (by omega)]; rfl

theorem first_size (b : Nat) (hx : first b < as) : 2 ≤ first b &&& 7 := by
  by_cases hb : b < 256
  · exact (first_facts b hb).2 hx
  · rw [first_of_ge b (by omega)] at hx
    exact absurd hx (by decide)

/-! ## `DecodeRune` -/

/-- An ASCII leading byte decodes to itself with width 1. -/
theorem DecodeRune_ascii (p : List Nat) (hp : p ≠ []) (h : p.getD 0 0 < 0x80) :
    DecodeRune p = (p.getD 0 0, 1) := by
  have hf := first_ascii _ h
  have hl : ¬ p.length < 1 := by
    cases p with
    | nil => exact absurd rfl hp
    | cons a t => simp
  unfold DecodeRune
  simp only [hf]
  rw [if_neg hl, if_pos (by decide), if_neg (by decide)]

/-- A decode that starts at a byte at or above 0x80 and does not yield
`RuneError` has width 2, 3 or 4 and stays inside the input. -/
theorem DecodeRune_size (p : List Nat) (h : 0x80 ≤ p.getD 0 0)
    (hr : (DecodeRune p).1 ≠ RuneError) :
    2 ≤ (DecodeRune p).2 ∧ (DecodeRune p).2 ≤ 4 ∧ (DecodeRune p).2 ≤ p.length := by
  have h1 := first_high _ h
  have h2 := first_size (p.getD 0 0)
  unfold DecodeRune at hr ⊢
  simp only [] at hr ⊢
  generalize first (p.getD 0 0) = x at *
  unfold as at *
  split_ifs at hr ⊢
  all_goals first
    | exact absurd rfl hr
    | (dsimp only; omega)

theorem DecodeRune_sz2 (p0 b1 : Nat) (rest : List Nat) (hlt : first p0 < as)
    (hsz : first p0 &&& 7 = 2)
    (hlo : (acceptRanges (first p0 >>> 4)).1 ≤ b1) (hhi : b1 ≤ (acceptRanges (first p0 >>> 4)).2) :
    DecodeRune (p0 :: b1 :: rest) = (p0 % 32 * 64 + b1 % 64, 2) := by
  unfold DecodeRune
  simp only [List.length_cons, List.getD_cons_zero, List.getD_cons_succ, hsz, value2]
  rw [if_neg (by omega), if_neg (by omega), if_neg (by omega), if_neg (by omega), if_pos (by omega)]

theorem DecodeRune_sz3 (p0 b1 b2 : Nat) (rest : List Nat) (hlt : first p0 < as)
    (hsz : first p0 &&& 7 = 3)
    (hlo : (acceptRanges (first p0 >>> 4)).1 ≤ b1) (hhi : b1 ≤ (acceptRanges (first p0 >>> 4)).2)
    (h2 : locb ≤ b2) (h2' : b2 ≤ hicb) :
    DecodeRune (p0 :: b1 :: b2 :: rest) = (p0 % 16 * 4096 + b1 % 64 * 64 + b2 % 64, 3) := by
  unfold DecodeRune
  simp only [List.length_cons, List.getD_cons_zero, List.getD_cons_succ, hsz, value3]
  rw [if_neg (by omega), if_neg (by omega), if_neg (by omega), if_neg (by omega),
    if_neg (by omega), if_neg (by omega), if_pos (by omega)]

theorem DecodeRune_sz4 (p0 b1 b2 b3 : Nat) (rest : List Nat) (hlt : first p0 < as)
    (hsz : first p0 &&& 7 = 4)
    (hlo : (acceptRanges (first p0 >>> 4)).1 ≤ b1) (hhi : b1 ≤ (acceptRanges (first p0 >>> 4)).2)
    (h2 : locb ≤ b2) (h2' : b2 ≤ hicb) (h3 : locb ≤ b3) (h3' : b3 ≤ hicb) :
    DecodeRune (p0 :: b1 :: b2 :: b3 :: rest) =
      (p0 % 8 * 262144 + b1 % 64 * 4096 + b2 % 64 * 64 + b3 % 64, 4) := by
  unfold DecodeRune
  simp only [List.length_cons, List.getD_cons_zero, List.getD_cons_succ, hsz, value4]
  rw [if_neg (by omega), if_neg (by omega), if_neg (by omega), if_neg (by omega),
    if_neg (by omega), if_neg (by omega), if_neg (by omega), if_neg (by omega)]

/-! ## `EncodeRune` and the round trip through `DecodeRune` -/

theorem EncodeRune_one (c : Nat) (h : c < 0x80) : EncodeRune c = [c] := by
  unfold EncodeRune toByte rune1Max
  rw [if_pos (by omega)]
  congr 1; omega

theorem EncodeRune_two (c : Nat) (h : 0x80 ≤ c) (h' : c ≤ 0x7FF) :
    EncodeRune c = [0xC0 + c / 64, 0x80 + c % 64] := by
  unfold EncodeRune rune1Max rune2Max
  rw [if_neg (by omega), if_pos (by omega), cont_byte, Nat.shiftRight_eq_div_pow,
    or_t2 _ (by unfold toByte; omega)]
  unfold toByte; congr 1; omega

theorem EncodeRune_three (c : Nat) (h : 0x800 ≤ c) (h' : c ≤ 0xFFFF)
    (hs : ¬ (0xD800 ≤ c ∧ c ≤ 0xDFFF)) :
    EncodeRune c = [0xE0 + c / 4096, 0x80 + c / 64 % 64, 0x80 + c % 64] := by
  unfold EncodeRune rune1Max rune2Max rune3Max MaxRune surrogateMin surrogateMax
  rw [if_neg (by omega), if_neg (by omega), if_neg (by omega), if_pos (by omega), cont_byte,
    cont_byte, Nat.shiftRight_eq_div_pow, Nat.shiftRight_eq_div_pow,
    or_t3 _ (by unfold toByte; omega)]
  unfold toByte; congr 1; omega

theorem EncodeRune_four (c : Nat) (h : 0x10000 ≤ c) (h' : c ≤ 0x10FFFF) :
    EncodeRune c =
      [0xF0 + c / 262144, 0x80 + c / 4096 % 64, 0x80 + c / 64 % 64, 0x80 + c % 64] := by
  unfold EncodeRune rune1Max rune2Max rune3Max MaxRune surrogateMin surrogateMax
  rw [if_neg (by omega), if_neg (by omega), if_neg (by omega), if_neg (by omega), cont_byte,
    cont_byte, cont_byte, Nat.shiftRight_eq_div_pow, Nat.shiftRight_eq_div_pow,
    Nat.shiftRight_eq_div_pow, or_t4 _ (by unfold toByte; omega)]
  unfold toByte; congr 1; omega

theorem EncodeRune_length_pos (c : Nat) : 1 ≤ (EncodeRune c).length := by
  unfold EncodeRune
  split_ifs <;> simp

theorem encodeRunes_append (xs ys : List Nat) :
    encodeRunes (xs ++ ys) = encodeRunes xs ++ encodeRunes ys := by
  induction xs with
  | nil => rfl
  | cons x xs ih => simp [encodeRunes, ih]

theorem encodeRunes_length_ge (cs : List Nat) : cs.length ≤ (encodeRunes cs).length := by
  induction cs with
  | nil => simp [encodeRunes]
  | cons c cs ih =>
    have := EncodeRune_length_pos c
    simp only [encodeRunes, List.length_cons, List.length_append]
    omega

/-- Decoding the encoding of a scalar value other than U+FFFD, whatever bytes
follow, gives the value back together with the width of its encoding. -/
theorem DecodeRune_EncodeRune (c : Nat) (rest : List Nat) (hs : isScalar c)
    (hne : c ≠ RuneError) :
    DecodeRune (EncodeRune c ++ rest) = (c, (EncodeRune c).length) := by
  unfold isScalar MaxRune surrogateMin surrogateMax at hs
  unfold RuneError at hne
  by_cases h1 : c < 0x80
  · rw [EncodeRune_one c h1]
    have hf := first_ascii c h1
    unfold DecodeRune
    simp only [List.singleton_append, List.length_cons, List.getD_cons_zero, hf, List.length_nil]
    rw [if_neg (by omega), if_pos (by decide), if_neg (by decide)]
  · by_cases h2 : c ≤ 0x7FF
    · rw [EncodeRune_two c (by omega) h2]
      have hf := first_two (0xC0 + c / 64) (by omega) (by omega)
      have := DecodeRune_sz2 (0xC0 + c / 64) (0x80 + c % 64) rest (by rw [hf]; decide)
        (by rw [hf]; decide) (by rw [hf]; simp [acceptRanges, locb])
        (by rw [hf]; simp [acceptRanges, hicb]; omega)
      simp only [List.cons_append, List.nil_append, List.length_cons, List.length_nil]
      rw [this]; congr 1; omega
    · by_cases h3 : c ≤ 0xFFFF
      · rw [EncodeRune_three c (by omega) h3 (by omega)]
        have hf := first_three (0xE0 + c / 4096) (by omega) (by omega)
        have hx : first (0xE0 + c / 4096) < as ∧ first (0xE0 + c / 4096) &&& 7 = 3 ∧
            (acceptRanges (first (0xE0 + c / 4096) >>> 4)).1 ≤ 0x80 + c / 64 % 64 ∧
            0x80 + c / 64 % 64 ≤ (acceptRanges (first (0xE0 + c / 4096) >>> 4)).2 := by
          rw [hf]
          by_cases hA : 0xE0 + c / 4096 = 0xE0
          · rw [if_pos hA]
            refine ⟨by decide, by decide, ?_, ?_⟩
            · show 0xA0 ≤ _; omega
            · show _ ≤ 0xBF; omega
          · rw [if_neg hA]
            by_cases hB : 0xE0 + c / 4096 = 0xED
            · rw [if_pos hB]
              refine ⟨by decide, by decide, ?_, ?_⟩
              · show 0x80 ≤ _; omega
              · show _ ≤ 0x9F; omega
            · rw [if_neg hB]
              refine ⟨by decide, by decide, ?_, ?_⟩
              · show 0x80 ≤ _; omega
              · show _ ≤ 0xBF; omega
        have := DecodeRune_sz3 (0xE0 + c / 4096) (0x80 + c / 64 % 64) (0x80 + c % 64) rest
          hx.1 hx.2.1 hx.2.2.1 hx.2.2.2 (by unfold locb; omega) (by unfold hicb; omega)
        simp only [List.cons_append, List.nil_append, List.length_cons, List.length_nil]
        rw [this]; congr 1; omega
      · rw [EncodeRune_four c (by omega) (by omega)]
        have hf := first_four (0xF0 + c / 262144) (by omega) (by omega)
        have hx : first (0xF0 + c / 262144) < as ∧ first (0xF0 + c / 262144) &&& 7 = 4 ∧
            (acceptRanges (first (0xF0 + c / 262144) >>> 4)).1 ≤ 0x80 + c / 4096 % 64 ∧
            0x80 + c / 4096 % 64 ≤ (acceptRanges (first (0xF0 + c / 262144) >>> 4)).2 := by
          rw [hf]
          by_cases hA : 0xF0 + c / 262144 = 0xF0
          · rw [if_pos hA]
            refine ⟨by decide, by decide, ?_, ?_⟩
            · show 0x90 ≤ _; omega
            · show _ ≤ 0xBF; omega
          · rw [if_neg hA]
            by_cases hB : 0xF0 + c / 262144 = 0xF4
            · rw [if_pos hB]
              refine ⟨by decide, by decide, ?_, ?_⟩
              · show 0x80 ≤ _; omega
              · show _ ≤ 0x8F; omega
            · rw [if_neg hB]
              refine ⟨by decide, by decide, ?_, ?_⟩
              · show 0x80 ≤ _; omega
              · show _ ≤ 0xBF; omega
        have := DecodeRune_sz4 (0xF0 + c / 262144) (0x80 + c / 4096 % 64) (0x80 + c / 64 % 64)
          (0x80 + c % 64) rest hx.1 hx.2.1 hx.2.2.1 hx.2.2.2 (by unfold locb; omega)
          (by unfold hicb; omega) (by unfold locb; omega) (by unfold hicb; omega)
        simp only [List.cons_append, List.nil_append, List.length_cons, List.length_nil]
        rw [this]; congr 1; omega

/-! ## Go runtime operations inside their bounds -/

theorem wrapInt_id (x : Int) (h : minInt ≤ x) (h' : x ≤ maxInt) : wrapInt x = x := by
  unfold wrapInt; unfold minInt at h; unfold maxInt at h'; omega

theorem index_ok (b : List Nat) (i : Int) (h0 : 0 ≤ i) (h1 : i < (b.length : Int)) :
    index b i = .ok (b.getD i.toNat 0) := by
  unfold index
  rw [if_neg (by omega)]
  have hlt : i.toNat < b.length := by omega
  rw [List.getD_eq_getElem?_getD, List.get?_eq_getElem?, List.getElem?_eq_getElem hlt]
  rfl

theorem sliceFrom_ok (b : List Nat) (i : Int) (h0 : 0 ≤ i) (h1 : i ≤ (b.length : Int)) :
    sliceFrom b i = .ok (b.drop i.toNat) := by
  unfold sliceFrom
  rw [if_neg (by omega)]

theorem getD_drop_zero (b : List Nat) (n : Nat) : (b.drop n).getD 0 0 = b.getD n 0 := by
  simp [List.getD_eq_getElem?_getD, List.getElem?_drop]

/-! ## `Scan` -/

/-- What `Scan` does when the cursor is inside the buffer. -/
theorem Scan_inside (s : Scanner) (h0 : 0 ≤ s.Cursor.End)
    (h1 : s.Cursor.End < (s.Buffer.length : Int)) :
    s.Scan =
      if s.Buffer.getD s.Cursor.End.toNat 0 ≥ RuneSelf then
        if (DecodeRune (s.Buffer.drop s.Cursor.End.toNat)).1 = RuneError then
          .ok (false, { s with Errors := s.Errors ++ [Error.ErrRuneError] })
        else
          .ok (true, { s with Cursor :=
            { Rune := ((DecodeRune (s.Buffer.drop s.Cursor.End.toNat)).1 : Int),
              Start := s.Cursor.End,
              End := addInt s.Cursor.End
                ((DecodeRune (s.Buffer.drop s.Cursor.End.toNat)).2 : Int) } })
      else
        .ok (true, { s with Cursor :=
          { Rune := (s.Buffer.getD s.Cursor.End.toNat 0 : Int), Start := s.Cursor.End,
            End := addInt s.Cursor.End 1 } }) := by
  unfold Scanner.Scan
  rw [if_neg (by omega), index_ok _ _ h0 h1, sliceFrom_ok _ _ h0 (by omega)]

/-- The decode of an ASCII byte at the cursor. -/
theorem DecodeRune_at_ascii (s : Scanner) (h0 : 0 ≤ s.Cursor.End)
    (h1 : s.Cursor.End < (s.Buffer.length : Int))
    (hb : s.Buffer.getD s.Cursor.End.toNat 0 < 0x80) :
    DecodeRune (s.Buffer.drop s.Cursor.End.toNat) = (s.Buffer.getD s.Cursor.End.toNat 0, 1) := by
  have hne : s.Buffer.drop s.Cursor.End.toNat ≠ [] := by
    intro hnil
    have := congrArg List.length hnil
    simp at this
    omega
  have := DecodeRune_ascii _ hne (by rw [getD_drop_zero]; exact hb)
  rw [getD_drop_zero] at this
  exact this

/-- A `Scan` over an ASCII byte or over a sequence that decodes to a rune other
than U+FFFD moves the cursor to the decoded rune. -/
theorem Scan_decoded (s : Scanner) (hlen : (s.Buffer.length : Int) ≤ maxInt)
    (h0 : 0 ≤ s.Cursor.End) (h1 : s.Cursor.End < (s.Buffer.length : Int))
    (h : s.Buffer.getD s.Cursor.End.toNat 0 < 0x80 ∨
      (DecodeRune (s.Buffer.drop s.Cursor.End.toNat)).1 ≠ RuneError) :
    s.Scan = .ok (true, { s with Cursor :=
        { Rune := ((DecodeRune (s.Buffer.drop s.Cursor.End.toNat)).1 : Int),
          Start := s.Cursor.End,
          End := s.Cursor.End + ((DecodeRune (s.Buffer.drop s.Cursor.End.toNat)).2 : Int) } }) := by
  rw [Scan_inside s h0 h1]
  by_cases hb : s.Buffer.getD s.Cursor.End.toNat 0 < 0x80
  · rw [if_neg (by unfold RuneSelf; omega), DecodeRune_at_ascii s h0 h1 hb]
    unfold addInt
    rw [wrapInt_id _ (by unfold minInt; omega) (by omega)]
    rfl
  · have hr : (DecodeRune (s.Buffer.drop s.Cursor.End.toNat)).1 ≠ RuneError := by
      rcases h with h | h
      · exact absurd h hb
      · exact h
    have hsz := DecodeRune_size _ (by rw [getD_drop_zero]; omega) hr
    rw [List.length_drop] at hsz
    rw [if_pos (by unfold RuneSelf; omega), if_neg hr]
    unfold addInt
    rw [wrapInt_id _ (by unfold minInt; omega) (by omega)]

/-- A `Scan` with the cursor at or past the end of the buffer changes nothing. -/
theorem Scan_at_end (s : Scanner) (h : s.Cursor.End ≥ (s.Buffer.length : Int)) :
    s.Scan = .ok (false, s) := by
  unfold Scanner.Scan
  rw [if_pos h]

/-! ## The scan loop over one-byte characters -/

theorem asciiCursor_End (buf : List Nat) (k : Nat) : (asciiCursor buf k).End = (k : Int) := by
  cases k <;> rfl

theorem ascii_Scan_step (buf : List Nat) (hascii : ∀ b ∈ buf, b < 0x80)
    (hlen : (buf.length : Int) ≤ maxInt) (k : Nat) (hk : k < buf.length) :
    Scanner.Scan { Buffer := buf, Errors := [], Cursor := asciiCursor buf k } =
      .ok (true, { Buffer := buf, Errors := [], Cursor := asciiCursor buf (k + 1) }) := by
  have hb : buf.getD k 0 < 0x80 := by
    rw [List.getD_eq_getElem _ _ hk]
    exact hascii _ (List.getElem_mem _)
  have hE := asciiCursor_End buf k
  have h1 := Scan_decoded { Buffer := buf, Errors := [], Cursor := asciiCursor buf k } hlen
    (by simp only [hE]; omega) (by simp only [hE]; omega)
    (Or.inl (by simp only [hE, Int.toNat_ofNat]; exact hb))
  have h2 := DecodeRune_at_ascii { Buffer := buf, Errors := [], Cursor := asciiCursor buf k }
    (by simp only [hE]; omega) (by simp only [hE]; omega)
    (by simp only [hE, Int.toNat_ofNat]; exact hb)
  simp only [hE, Int.toNat_ofNat] at h1 h2
  rw [h1, h2]
  rfl

theorem ascii_scanLoop (buf : List Nat) (hascii : ∀ b ∈ buf, b < 0x80)
    (hlen : (buf.length : Int) ≤ maxInt) (n : Nat) :
    ∀ (k : Nat) (acc : List Token), k + n = buf.length →
      scanLoop (n + 1) { Buffer := buf, Errors := [], Cursor := asciiCursor buf k } acc =
        some (.ok (acc ++ (List.range' k n).map (asciiToken buf),
          { Buffer := buf, Errors := [], Cursor := asciiCursor buf buf.length })) := by
  induction n with
  | zero =>
    intro k acc hk
    have hk' : k = buf.length := by omega
    subst hk'
    have hex := Scan_at_end { Buffer := buf, Errors := [], Cursor := asciiCursor buf buf.length }
      (by simp only [asciiCursor_End]; omega)
    simp [scanLoop, hex]
  | succ n ih =>
    intro k acc hk
    have hstep := ascii_Scan_step buf hascii hlen k (by omega)
    have hih := ih (k + 1) (acc ++ [asciiToken buf k]) (by omega)
    unfold scanLoop
    rw [hstep]
    simp only []
    have htok : Scanner.Token { Buffer := buf, Errors := [], Cursor := asciiCursor buf (k + 1) } =
        asciiToken buf k := rfl
    rw [htok, hih]
    simp [List.range'_succ]

/-! ## The scan loop over encoded runes -/

/-- One successful `Scan` over the encoding of a scalar value other than U+FFFD. -/
theorem utf8_Scan_step (pre rest : List Nat) (c : Nat) (cur : Pos) (errs : List Error)
    (hc : isScalar c) (hne : c ≠ RuneError)
    (hlen : ((encodeRunes (pre ++ c :: rest)).length : Int) ≤ maxInt)
    (hcur : cur.End = ((encodeRunes pre).length : Int)) :
    Scanner.Scan { Buffer := encodeRunes (pre ++ c :: rest), Errors := errs, Cursor := cur } =
      .ok (true,
        { Buffer := encodeRunes (pre ++ c :: rest), Errors := errs,
          Cursor :=
            { Rune := (c : Int), Start := ((encodeRunes pre).length : Int),
              End := (((encodeRunes pre).length + (EncodeRune c).length : Nat) : Int) } }) := by
  have hbuf : encodeRunes (pre ++ c :: rest) =
      encodeRunes pre ++ (EncodeRune c ++ encodeRunes rest) := by
    rw [encodeRunes_append]; rfl
  have hpos := EncodeRune_length_pos c
  have hdrop : (encodeRunes (pre ++ c :: rest)).drop (encodeRunes pre).length =
      EncodeRune c ++ encodeRunes rest := by
    rw [hbuf, List.drop_left]
  have hdec := DecodeRune_EncodeRune c (encodeRunes rest) hc hne
  have hl : (encodeRunes (pre ++ c :: rest)).length =
      (encodeRunes pre).length + ((EncodeRune c).length + (encodeRunes rest).length) := by
    rw [hbuf]; simp only [List.length_append]
  have h := Scan_decoded
    { Buffer := encodeRunes (pre ++ c :: rest), Errors := errs, Cursor := cur } hlen
    (by simp only [hcur]; omega) (by simp only [hcur, hl]; omega)
    (Or.inr (by simp only [hcur, Int.toNat_ofNat, hdrop, hdec]; exact hne))
  simp only [hcur, Int.toNat_ofNat, hdrop, hdec] at h
  rw [h]
  simp only [Nat.cast_add]

theorem runeToken_at (pre rest : List Nat) (c : Nat) (buf : List Nat) :
    runeToken buf (pre ++ c :: rest) pre.length =
      { Rune := (c : Int), Start := ((encodeRunes pre).length : Int),
        End := (((encodeRunes pre).length + (EncodeRune c).length : Nat) : Int),
        Buffer := some buf } := by
  have h1 : (pre ++ c :: rest).getD pre.length 0 = c := by
    rw [List.getD_eq_getElem?_getD, List.getElem?_append_right (Nat.le_refl _), Nat.sub_self]
    simp
  have h2 : (pre ++ c :: rest).take pre.length = pre := List.take_left _ _
  unfold runeToken encodedWidth
  rw [h1, h2]

/-- The loop over the encoding of `pre ++ todo`, entered with the cursor at the
end of the encoding of `pre`: it collects one token per rune of `todo` and stops
at the end of the buffer. -/
theorem utf8_scanLoop (todo : List Nat) :
    ∀ (pre : List Nat) (cur : Pos) (acc : List Token) (fuel : Nat),
      (∀ c ∈ todo, isScalar c ∧ c ≠ RuneError) →
      ((encodeRunes (pre ++ todo)).length : Int) ≤ maxInt →
      cur.End = ((encodeRunes pre).length : Int) →
      todo.length < fuel →
      ∃ fin : Scanner,
        scanLoop fuel { Buffer := encodeRunes (pre ++ todo), Errors := [], Cursor := cur } acc =
          some (.ok (acc ++ (List.range' pre.length todo.length).map
            (runeToken (encodeRunes (pre ++ todo)) (pre ++ todo)), fin)) ∧
        fin.Buffer = encodeRunes (pre ++ todo) ∧
        fin.Cursor.End = ((encodeRunes (pre ++ todo)).length : Int) ∧
        fin.Errors = [] ∧ fin.Scan = .ok (false, fin) := by
  induction todo with
  | nil =>
    intro pre cur acc fuel _ _ hcur hfuel
    obtain ⟨f, rfl⟩ : ∃ f, fuel = f + 1 := ⟨fuel - 1, by simp at hfuel; omega⟩
    have hex := Scan_at_end
      { Buffer := encodeRunes (pre ++ []), Errors := [], Cursor := cur }
      (by simp only [List.append_nil, hcur]; omega)
    refine ⟨{ Buffer := encodeRunes (pre ++ []), Errors := [], Cursor := cur }, ?_, rfl, ?_, rfl,
      hex⟩
    · unfold scanLoop
      rw [hex]
      simp
    · simp only [List.append_nil, hcur]
  | cons c rest ih =>
    intro pre cur acc fuel hs hlen hcur hfuel
    obtain ⟨f, rfl⟩ : ∃ f, fuel = f + 1 := ⟨fuel - 1, by simp at hfuel; omega⟩
    have hc := hs c (List.mem_cons_self _ _)
    have hstep := utf8_Scan_step pre rest c cur [] hc.1 hc.2 hlen hcur
    have happ : (pre ++ [c]) ++ rest = pre ++ c :: rest := by simp
    have hw : (encodeRunes (pre ++ [c])).length =
        (encodeRunes pre).length + (EncodeRune c).length := by
      rw [encodeRunes_append]; simp [encodeRunes]
    obtain ⟨fin, h1, h2, h3, h4, h5⟩ := ih (pre ++ [c])
      { Rune := (c : Int), Start := ((encodeRunes pre).length : Int),
        End := (((encodeRunes pre).length + (EncodeRune c).length : Nat) : Int) }
      (acc ++ [runeToken (encodeRunes (pre ++ c :: rest)) (pre ++ c :: rest) pre.length]) f
      (fun x hx => hs x (List.mem_cons_of_mem _ hx)) (by rw [happ]; exact hlen)
      (by rw [hw]) (by simp at hfuel; omega)
    rw [happ] at h1 h2 h3
    refine ⟨fin, ?_, h2, h3, h4, h5⟩
    unfold scanLoop
    rw [hstep]
    simp only []
    have htok : Scanner.Token
        { Buffer := encodeRunes (pre ++ c :: rest), Errors := [],
          Cursor :=
            { Rune := (c : Int), Start := ((encodeRunes pre).length : Int),
              End := (((encodeRunes pre).length + (EncodeRune c).length : Nat) : Int) } } =
        runeToken (encodeRunes (pre ++ c :: rest)) (pre ++ c :: rest) pre.length := by
      rw [runeToken_at]; rfl
    rw [htok, h1]
    simp [List.range'_succ]

/-! ## `Peek` and `ScanAll` -/

/-- What `Peek` returns when the cursor is not negative and `Cursor.End + len(v)`
does not overflow. -/
theorem Peek_in_range (s : Scanner) (v : List Nat) (h0 : 0 ≤ s.Cursor.End)
    (hsum : s.Cursor.End + (v.length : Int) ≤ maxInt) :
    s.Peek v = .ok (decide (s.Cursor.End + (v.length : Int) ≤ (s.Buffer.length : Int) ∧
      (s.Buffer.drop s.Cursor.End.toNat).take v.length = v)) := by
  have hw1 : addInt (v.length : Int) s.Cursor.End = s.Cursor.End + (v.length : Int) := by
    unfold addInt
    rw [wrapInt_id _ (by unfold minInt; omega) (by omega)]
    omega
  have hw2 : addInt s.Cursor.End (v.length : Int) = s.Cursor.End + (v.length : Int) := by
    unfold addInt
    rw [wrapInt_id _ (by unfold minInt; omega) (by omega)]
  unfold Scanner.Peek
  rw [hw1]
  by_cases hgt : s.Cursor.End + (v.length : Int) > (s.Buffer.length : Int)
  · rw [if_pos hgt]
    congr 1
    symm
    rw [decide_eq_false_iff_not]
    intro h
    omega
  · rw [if_neg hgt]
    simp only [hw2]
    unfold slice
    rw [if_neg (by omega)]
    have hn : (s.Cursor.End + (v.length : Int)).toNat - s.Cursor.End.toNat = v.length := by omega
    simp only [hn]
    by_cases heq : (s.Buffer.drop s.Cursor.End.toNat).take v.length = v
    · rw [if_pos heq]
      congr 1
      symm
      rw [decide_eq_true_iff]
      exact ⟨by omega, heq⟩
    · rw [if_neg heq]
      congr 1
      symm
      rw [decide_eq_false_iff_not]
      intro h
      exact heq h.2

/-- `make([]Token, n)` returns `n` zero-valued tokens when `n` is not negative
and the tokens fit in one allocation. -/
theorem makeTokens_ok (n : Int) (h0 : 0 ≤ n) (hmax : tokenSize * n ≤ maxAlloc) :
    makeTokens n =
      .ok (List.replicate n.toNat { Rune := 0, Start := 0, End := 0, Buffer := none }) := by
  unfold makeTokens
  rw [if_neg (by omega)]

/-- `make([]Token, n)` panics when `n` is negative or the tokens do not fit in
one allocation. -/
theorem makeTokens_panic (n : Int) (h : n < 0 ∨ tokenSize * n > maxAlloc) :
    makeTokens n = .error Panic.makesliceLenOutOfRange := by
  unfold makeTokens
  rw [if_pos h]

/-- A `make([]Token, n)` that returns was given a length inside its bounds. -/
theorem makeTokens_inv (n : Int) (res : List Token) (h : makeTokens n = .ok res) :
    0 ≤ n ∧ tokenSize * n ≤ maxAlloc ∧
      res = List.replicate n.toNat { Rune := 0, Start := 0, End := 0, Buffer := none } := by
  unfold makeTokens at h
  by_cases hb : n < 0 ∨ tokenSize * n > maxAlloc
  · rw [if_pos hb] at h
    cases h
  · rw [if_neg hb] at h
    cases h
    exact ⟨by omega, by omega, rfl⟩

/-- Started with the cursor at offset 0, `ScanAll` returns what the manual loop
collects, with the flag `!Errored()`. -/
theorem ScanAll_eq_ScanLoop_of_End_zero (s : Scanner) (h : s.Cursor.End = 0) :
    s.ScanAll = (s.ScanLoop).map (fun r => r.map (fun p => (p.1, !p.2.Errored, p.2))) := by
  unfold Scanner.ScanAll Scanner.ScanAllFuel Scanner.ScanLoop
  rw [h, makeTokens_ok 0 (Int.le_refl 0) (by decide)]
  simp only [Int.toNat_zero, List.replicate_zero]
  cases hl : scanLoop (loopFuel s) s [] with
  | none => rfl
  | some r =>
    cases r with
    | error e => rfl
    | ok p =>
      obtain ⟨toks, s1⟩ := p
      cases he : s1.Errored <;> simp [Except.map, he]

/-! ## Progress of `Scan` and termination of the loop -/

/-- A `Scan` with a negative `Cursor.End` panics on the index expression. -/
theorem Scan_negative (s : Scanner) (h : s.Cursor.End < 0) :
    s.Scan = .error Panic.indexOutOfRange := by
  unfold Scanner.Scan index
  rw [if_neg (by omega), if_pos h]

/-- A successful `Scan` keeps `Buffer` and `Errors` and moves `Cursor.End`
forward, by at least one byte and not beyond the end of the buffer. -/
theorem Scan_true_advance (s s1 : Scanner) (hlen : (s.Buffer.length : Int) ≤ maxInt)
    (h : s.Scan = .ok (true, s1)) :
    s1.Buffer = s.Buffer ∧ s1.Errors = s.Errors ∧ s1.Cursor.Start = s.Cursor.End ∧
      s.Cursor.End < s1.Cursor.End ∧ s1.Cursor.End ≤ s.Cursor.End + 4 ∧
      s1.Cursor.End ≤ (s.Buffer.length : Int) := by
  by_cases hneg : s.Cursor.End < 0
  · rw [Scan_negative s hneg] at h
    cases h
  · by_cases hend : s.Cursor.End ≥ (s.Buffer.length : Int)
    · rw [Scan_at_end s hend] at h
      cases h
    · have h0 : 0 ≤ s.Cursor.End := by omega
      have h1 : s.Cursor.End < (s.Buffer.length : Int) := by omega
      by_cases hb : s.Buffer.getD s.Cursor.End.toNat 0 < 0x80
      · rw [Scan_decoded s hlen h0 h1 (Or.inl hb), DecodeRune_at_ascii s h0 h1 hb] at h
        cases h
        refine ⟨rfl, rfl, rfl, ?_, ?_, ?_⟩ <;> simp only [] <;> omega
      · by_cases hr : (DecodeRune (s.Buffer.drop s.Cursor.End.toNat)).1 = RuneError
        · rw [Scan_inside s h0 h1, if_pos (by unfold RuneSelf; omega), if_pos hr] at h
          cases h
        · have hsz := DecodeRune_size _ (by rw [getD_drop_zero]; omega) hr
          rw [List.length_drop] at hsz
          rw [Scan_decoded s hlen h0 h1 (Or.inr hr)] at h
          cases h
          refine ⟨rfl, rfl, rfl, ?_, ?_, ?_⟩ <;> simp only [] <;> omega

/-- A `Scan` that returns false leaves the cursor and the buffer alone. -/
theorem Scan_false_frame (s s1 : Scanner) (h : s.Scan = .ok (false, s1)) :
    s1.Buffer = s.Buffer ∧ s1.Cursor = s.Cursor := by
  by_cases hneg : s.Cursor.End < 0
  · rw [Scan_negative s hneg] at h
    cases h
  · by_cases hend : s.Cursor.End ≥ (s.Buffer.length : Int)
    · rw [Scan_at_end s hend] at h
      cases h
      exact ⟨rfl, rfl⟩
    · rw [Scan_inside s (by omega) (by omega)] at h
      split_ifs at h <;> cases h
      exact ⟨rfl, rfl⟩

/-- The loop never runs out of fuel once the fuel exceeds the bytes left after
the cursor. -/
theorem scanLoop_total (fuel : Nat) :
    ∀ (s : Scanner) (acc : List Token), (s.Buffer.length : Int) ≤ maxInt →
      ((s.Buffer.length : Int) - s.Cursor.End).toNat < fuel →
      ∃ r, scanLoop fuel s acc = some r := by
  induction fuel with
  | zero => intro s acc _ h; omega
  | succ f ih =>
    intro s acc hlen hf
    unfold scanLoop
    cases hs : s.Scan with
    | error e => exact ⟨_, rfl⟩
    | ok p =>
      obtain ⟨b, s1⟩ := p
      cases b with
      | false => exact ⟨_, rfl⟩
      | true =>
        obtain ⟨hB, -, -, hlt, -, hle⟩ := Scan_true_advance s s1 hlen hs
        exact ih s1 _ (by rw [hB]; exact hlen) (by rw [hB]; omega)

/-- The manual loop and `ScanAll` always end: with a panic or with a result. -/
theorem ScanLoop_total (s : Scanner) (hlen : (s.Buffer.length : Int) ≤ maxInt) :
    ∃ r, s.ScanLoop = some r := by
  by_cases hneg : s.Cursor.End < 0
  · refine ⟨.error Panic.indexOutOfRange, ?_⟩
    unfold Scanner.ScanLoop loopFuel scanLoop
    rw [Scan_negative s hneg]
  · exact scanLoop_total _ s [] hlen (by unfold loopFuel; omega)

theorem ScanAll_total (s : Scanner) (hlen : (s.Buffer.length : Int) ≤ maxInt) :
    ∃ r, s.ScanAll = some r := by
  unfold Scanner.ScanAll Scanner.ScanAllFuel
  cases hm : makeTokens s.Cursor.End with
  | error e => exact ⟨_, rfl⟩
  | ok res =>
    have h0 : ¬ s.Cursor.End < 0 := by
      have := (makeTokens_inv _ _ hm).1
      omega
    obtain ⟨r, hr⟩ := scanLoop_total (loopFuel s) s res hlen (by unfold loopFuel; omega)
    simp only [hr]
    cases r with
    | error e => exact ⟨_, rfl⟩
    | ok p =>
      obtain ⟨toks, s1⟩ := p
      simp only []
      split_ifs <;> exact ⟨_, rfl⟩

/-! ## The claims -/

/-- Claim C1, the success postcondition of `Scan`: with `0 <= Cursor.End <
len(Buffer)`, when the byte at `Cursor.End` is below 0x80 or `DecodeRune` of
`Buffer[Cursor.End:]` yields a rune `r` other than U+FFFD with width `w`, `Scan`
returns true and the new cursor is `Pos{r, old End, old End + w}`, `Buffer` and
`Errors` unchanged; `r` is the byte and `w = 1` in the ASCII case, and
`2 <= w <= 4` otherwise. -/
theorem Scan_success (s : Scanner) (hlen : (s.Buffer.length : Int) ≤ maxInt)
    (h0 : 0 ≤ s.Cursor.End) (h1 : s.Cursor.End < (s.Buffer.length : Int))
    (h : s.Buffer.getD s.Cursor.End.toNat 0 < 0x80 ∨
      (DecodeRune (s.Buffer.drop s.Cursor.End.toNat)).1 ≠ RuneError) :
    s.Scan = .ok (true, { s with Cursor :=
        { Rune := ((DecodeRune (s.Buffer.drop s.Cursor.End.toNat)).1 : Int),
          Start := s.Cursor.End,
          End := s.Cursor.End + ((DecodeRune (s.Buffer.drop s.Cursor.End.toNat)).2 : Int) } }) ∧
      (s.Buffer.getD s.Cursor.End.toNat 0 < 0x80 →
        (DecodeRune (s.Buffer.drop s.Cursor.End.toNat)).1 = s.Buffer.getD s.Cursor.End.toNat 0 ∧
        (DecodeRune (s.Buffer.drop s.Cursor.End.toNat)).2 = 1) ∧
      (0x80 ≤ s.Buffer.getD s.Cursor.End.toNat 0 →
        2 ≤ (DecodeRune (s.Buffer.drop s.Cursor.End.toNat)).2 ∧
        (DecodeRune (s.Buffer.drop s.Cursor.End.toNat)).2 ≤ 4) := by
  refine ⟨Scan_decoded s hlen h0 h1 h, ?_, ?_⟩
  · intro hb
    rw [DecodeRune_at_ascii s h0 h1 hb]
    exact ⟨rfl, rfl⟩
  · intro hb
    have hr : (DecodeRune (s.Buffer.drop s.Cursor.End.toNat)).1 ≠ RuneError := by
      rcases h with h | h
      · omega
      · exact h
    have hsz := DecodeRune_size _ (by rw [getD_drop_zero]; omega) hr
    exact ⟨hsz.1, hsz.2.1⟩

/-- Claim C1 at the buffer `2E E6 9F B3` with the cursor after the first byte:
the three-byte character U+67F3 is scanned as `Pos{0x67F3, 1, 4}`. -/
theorem Scan_success_witness :
    Scanner.Scan { Buffer := [0x2E, 0xE6, 0x9F, 0xB3], Errors := [], Cursor := ⟨0x2E, 0, 1⟩ } =
      .ok (true, { Buffer := [0x2E, 0xE6, 0x9F, 0xB3], Errors := [],
                   Cursor := ⟨0x67F3, 1, 4⟩ }) := by
  have h := (Scan_success
    { Buffer := [0x2E, 0xE6, 0x9F, 0xB3], Errors := [], Cursor := ⟨0x2E, 0, 1⟩ }
    (by decide) (by decide) (by decide) (Or.inr (by decide))).1
  rw [h]
  rfl

/-- Claim C2, the decode-error contract of `Scan`: with `0 <= Cursor.End <
len(Buffer)`, a byte at `Cursor.End` at or above 0x80 and a decode of
`Buffer[Cursor.End:]` that yields U+FFFD, `Scan` returns false, leaves `Cursor`
and `Buffer` unchanged and appends exactly one `ErrRuneError` to `Errors`, so
that `Errored()` is true afterwards. -/
theorem Scan_decode_error (s : Scanner)
    (h0 : 0 ≤ s.Cursor.End) (h1 : s.Cursor.End < (s.Buffer.length : Int))
    (hb : 0x80 ≤ s.Buffer.getD s.Cursor.End.toNat 0)
    (hr : (DecodeRune (s.Buffer.drop s.Cursor.End.toNat)).1 = RuneError) :
    s.Scan = .ok (false, { s with Errors := s.Errors ++ [Error.ErrRuneError] }) ∧
      Scanner.Errored { s with Errors := s.Errors ++ [Error.ErrRuneError] } = true := by
  constructor
  · rw [Scan_inside s h0 h1, if_pos (by unfold RuneSelf; omega), if_pos hr]
  · simp [Scanner.Errored]

/-- Claim C2 at the buffer `EF BF BD` (the encoding of U+FFFD itself) and at the
truncated sequence `E6 9F`. -/
theorem Scan_decode_error_witness :
    (Scanner.Scan { Buffer := [0xEF, 0xBF, 0xBD], Errors := [], Cursor := Zero } =
        .ok (false, { Buffer := [0xEF, 0xBF, 0xBD], Errors := [Error.ErrRuneError],
                      Cursor := Zero }) ∧
      Scanner.Errored { Buffer := [0xEF, 0xBF, 0xBD], Errors := [Error.ErrRuneError],
                        Cursor := Zero } = true) ∧
    (Scanner.Scan { Buffer := [0xE6, 0x9F], Errors := [], Cursor := Zero } =
        .ok (false, { Buffer := [0xE6, 0x9F], Errors := [Error.ErrRuneError],
                      Cursor := Zero }) ∧
      Scanner.Errored { Buffer := [0xE6, 0x9F], Errors := [Error.ErrRuneError],
                        Cursor := Zero } = true) :=
  ⟨Scan_decode_error { Buffer := [0xEF, 0xBF, 0xBD], Errors := [], Cursor := Zero }
      (by decide) (by decide) (by decide) (by decide),
   Scan_decode_error { Buffer := [0xE6, 0x9F], Errors := [], Cursor := Zero }
      (by decide) (by decide) (by decide) (by decide)⟩

/-- Claim C3, the exhaustion contract of `Scan`: with `Cursor.End >=
len(Buffer)`, `Scan` returns false and the whole state is unchanged. -/
theorem Scan_exhausted (s : Scanner) (h : s.Cursor.End ≥ (s.Buffer.length : Int)) :
    s.Scan = .ok (false, s) := by
  unfold Scanner.Scan
  rw [if_pos h]

/-- Claim C3 at the one-byte buffer `"H"` with the cursor at its end. -/
theorem Scan_exhausted_witness :
    Scanner.Scan { Buffer := [0x48], Errors := [], Cursor := ⟨0x48, 0, 1⟩ } =
      .ok (false, { Buffer := [0x48], Errors := [], Cursor := ⟨0x48, 0, 1⟩ }) :=
  Scan_exhausted { Buffer := [0x48], Errors := [], Cursor := ⟨0x48, 0, 1⟩ } (by decide)

/-- Claim C4, scanning decodes UTF-8 exactly: for runes `cs` that are Unicode
scalar values other than U+FFFD, the loop `for Scan() { collect Token() }` on
the fresh scanner over the UTF-8 encoding of `cs` ends normally with exactly
`len(cs)` tokens; the `i`-th token has `Rune = cs[i]`, `Start` = the encoded
width of `cs[0..i)` and `End = Start +` the encoded width of `cs[i]`; the final
`Cursor.End` is `len(Buffer)`, `Errors` is empty and the `Scan` that ends the
loop returns false. -/
theorem utf8_scanning (cs : List Nat) (hs : ∀ c ∈ cs, isScalar c ∧ c ≠ RuneError)
    (hlen : ((encodeRunes cs).length : Int) ≤ maxInt) :
    ∃ (toks : List Token) (fin : Scanner),
      New (some { data := encodeRunes cs, err := none }) = .ok (fresh (encodeRunes cs)) ∧
      (fresh (encodeRunes cs)).ScanLoop = some (.ok (toks, fin)) ∧
      toks.length = cs.length ∧
      (∀ i, i < cs.length → toks.get? i = some (runeToken (encodeRunes cs) cs i)) ∧
      fin.Buffer = encodeRunes cs ∧
      fin.Cursor.End = ((encodeRunes cs).length : Int) ∧
      fin.Errors = [] ∧ fin.Scan = .ok (false, fin) := by
  obtain ⟨fin, h1, h2, h3, h4, h5⟩ :=
    utf8_scanLoop cs [] Zero [] (loopFuel (fresh (encodeRunes cs))) hs hlen rfl (by
      have := encodeRunes_length_ge cs
      unfold loopFuel fresh
      simp only []
      omega)
  refine ⟨(List.range cs.length).map (runeToken (encodeRunes cs) cs), fin, rfl, ?_, by simp, ?_,
    h2, h3, h4, h5⟩
  · unfold Scanner.ScanLoop
    simpa [fresh, List.range_eq_range'] using h1
  · intro i hi
    simp [List.getElem?_range hi, hi]

/-- Claim C4 at `.transaction[].status.` followed by the three-byte character
U+67F3: 23 tokens, the 22nd spans `21:22` and the last one `22:25`. -/
theorem utf8_scanning_witness :
    ∃ (toks : List Token) (fin : Scanner),
      (fresh (encodeRunes sampleRunes)).ScanLoop = some (.ok (toks, fin)) ∧
      toks.length = 23 ∧
      toks.get? 21 = some { Rune := 0x2E, Start := 21, End := 22,
                            Buffer := some (encodeRunes sampleRunes) } ∧
      toks.get? 22 = some { Rune := 0x67F3, Start := 22, End := 25,
                            Buffer := some (encodeRunes sampleRunes) } ∧
      fin.Cursor.End = 25 ∧ fin.Errors = [] := by
  obtain ⟨toks, fin, -, h1, h2, h3, -, h5, h6, -⟩ :=
    utf8_scanning sampleRunes (by decide) (by decide)
  refine ⟨toks, fin, h1, h2, ?_, ?_, h5, h6⟩
  · rw [h3 21 (by decide)]; rfl
  · rw [h3 22 (by decide)]; rfl

/-- Claim C5, ASCII scanning: for a buffer of `N` bytes all below 0x80 (the
fresh scanner has the cursor `asciiCursor buf 0 = Zero`), the `k+1`-th `Scan`
(`k < N`) returns true and moves the cursor from the one after `k` scans to
`Pos{Buffer[k], k, k+1}`, the `Scan` after `N` scans returns false, and
`ScanAll` on the fresh scanner returns the `N` tokens `{Buffer[i], i, i+1}` in
order with the flag true. -/
theorem ascii_scanning (buf : List Nat) (hascii : ∀ b ∈ buf, b < 0x80)
    (hlen : (buf.length : Int) ≤ maxInt) :
    New (some { data := buf, err := none }) =
        .ok { Buffer := buf, Errors := [], Cursor := asciiCursor buf 0 } ∧
      (∀ k, k < buf.length →
        Scanner.Scan { Buffer := buf, Errors := [], Cursor := asciiCursor buf k } =
          .ok (true, { Buffer := buf, Errors := [], Cursor := asciiCursor buf (k + 1) })) ∧
      Scanner.Scan { Buffer := buf, Errors := [], Cursor := asciiCursor buf buf.length } =
        .ok (false, { Buffer := buf, Errors := [], Cursor := asciiCursor buf buf.length }) ∧
      Scanner.ScanAll { Buffer := buf, Errors := [], Cursor := asciiCursor buf 0 } =
        some (.ok (asciiTokens buf, true,
          { Buffer := buf, Errors := [], Cursor := asciiCursor buf buf.length })) := by
  refine ⟨rfl, ascii_Scan_step buf hascii hlen, ?_, ?_⟩
  · exact Scan_at_end _ (by simp only [asciiCursor_End]; omega)
  · have hloop := ascii_scanLoop buf hascii hlen buf.length 0 [] (by omega)
    unfold Scanner.ScanAll Scanner.ScanAllFuel loopFuel
    have hmk : makeTokens (Scanner.Cursor
        { Buffer := buf, Errors := [], Cursor := asciiCursor buf 0 }).End = .ok [] := rfl
    rw [hmk]
    simp only []
    rw [hloop]
    simp [Scanner.Errored, asciiTokens, List.range_eq_range']

/-- Claim C5 at `"Hello!"`: `ScanAll` returns H 0:1, e 1:2, l 2:3, l 3:4, o 4:5,
! 5:6 and the flag true. -/
theorem ascii_scanning_witness :
    Scanner.ScanAll (fresh [0x48, 0x65, 0x6C, 0x6C, 0x6F, 0x21]) =
      some (.ok ([ { Rune := 0x48, Start := 0, End := 1,
                     Buffer := some [0x48, 0x65, 0x6C, 0x6C, 0x6F, 0x21] },
                   { Rune := 0x65, Start := 1, End := 2,
                     Buffer := some [0x48, 0x65, 0x6C, 0x6C, 0x6F, 0x21] },
                   { Rune := 0x6C, Start := 2, End := 3,
                     Buffer := some [0x48, 0x65, 0x6C, 0x6C, 0x6F, 0x21] },
                   { Rune := 0x6C, Start := 3, End := 4,
                     Buffer := some [0x48, 0x65, 0x6C, 0x6C, 0x6F, 0x21] },
                   { Rune := 0x6F, Start := 4, End := 5,
                     Buffer := some [0x48, 0x65, 0x6C, 0x6C, 0x6F, 0x21] },
                   { Rune := 0x21, Start := 5, End := 6,
                     Buffer := some [0x48, 0x65, 0x6C, 0x6C, 0x6F, 0x21] } ],
                 true,
                 { Buffer := [0x48, 0x65, 0x6C, 0x6C, 0x6F, 0x21], Errors := [],
                   Cursor := ⟨0x21, 5, 6⟩ })) :=
  (ascii_scanning [0x48, 0x65, 0x6C, 0x6C, 0x6F, 0x21] (by decide) (by decide)).2.2.2

/-- Claim C6 at its failing input: on the scanner for `"ab"` moved by `Goto` to
`Cursor.End = 9223372036854775807`, `Peek("a")` does not return false: the sum
`len(v) + Cursor.End` wraps around to a negative value, the bounds check lets it
pass and the slice expression panics. -/
theorem Peek_overflow_panics :
    Scanner.Peek ((fresh [0x61, 0x62]).Goto
      { Rune := 0, Start := 0, End := 9223372036854775807, Buffer := none }) [0x61] =
      .error Panic.sliceBoundsOutOfRange := by
  rfl

/-- Claim C7 as amended: for every scanner state with `0 <= Cursor.End <=
len(Buffer)`, `Peek("")` returns true. -/
theorem Peek_empty_string (s : Scanner) (hlen : (s.Buffer.length : Int) ≤ maxInt)
    (h0 : 0 ≤ s.Cursor.End) (h1 : s.Cursor.End ≤ (s.Buffer.length : Int)) :
    s.Peek [] = .ok true := by
  rw [Peek_in_range s [] h0 (by simp only [List.length_nil]; omega)]
  congr 1
  rw [decide_eq_true_iff]
  exact ⟨by simp only [List.length_nil]; omega, by simp⟩

/-- Claim C7 as amended, on the empty buffer and with the cursor at the end of
a one-byte buffer. -/
theorem Peek_empty_string_witness :
    Scanner.Peek (fresh []) [] = .ok true ∧
    Scanner.Peek { Buffer := [0x61], Errors := [], Cursor := ⟨0x61, 0, 1⟩ } [] = .ok true :=
  ⟨Peek_empty_string (fresh []) (by decide) (by decide) (by decide),
   Peek_empty_string { Buffer := [0x61], Errors := [], Cursor := ⟨0x61, 0, 1⟩ }
     (by decide) (by decide) (by decide)⟩

/-- Claim C7 as stated fails: on the empty buffer with `Cursor.End = 1` the
guard `len(v)+Cursor.End > len(Buffer)` makes `Peek("")` return false. -/
theorem Peek_empty_string_counterexample :
    Scanner.Peek { Buffer := [], Errors := [], Cursor := ⟨0, 0, 1⟩ } [] = .ok false := by
  rfl

/-- Claim C8, `Reset` restores the initial state: for every scanner state, after
`Reset` the cursor is `Zero`, the error list is empty (`Errored()` is false) and
`Buffer` is unchanged, so the state is the one `New` produces for the same
bytes, and the scan loop run after `Reset` is the one run on the fresh scanner. -/
theorem Reset_restores_initial_state (s : Scanner) :
    s.Reset.Cursor = Zero ∧ s.Reset.Errors = [] ∧ s.Reset.Errored = false ∧
      s.Reset.Buffer = s.Buffer ∧
      New (some { data := s.Buffer, err := none }) = .ok s.Reset ∧
      s.Reset.ScanLoop = (fresh s.Buffer).ScanLoop := by
  refine ⟨rfl, rfl, rfl, rfl, rfl, rfl⟩

/-- Claim C9, the `Goto` round trip: for every scanner state and every token
`t`, after `Goto(t)` the cursor equals `t.Position()` and `Token().Position()`
equals `t.Position()`; `Buffer` and `Errors` are unchanged. -/
theorem Goto_round_trip (s : Scanner) (t : Token) :
    (s.Goto t).Cursor = t.Position ∧ (s.Goto t).Token.Position = t.Position ∧
      (s.Goto t).Buffer = s.Buffer ∧ (s.Goto t).Errors = s.Errors := by
  refine ⟨rfl, rfl, rfl, rfl⟩

/-- Claim C10 at its failing inputs: on the buffer `"ab"` after one `Scan`
(cursor `Pos{a, 0, 1}`), `ScanAll` returns a zero-valued token followed by the
token of `b`, while the manual loop from the same state collects the token of
`b` alone; and a second `ScanAll` without `Reset` (cursor `Pos{b, 1, 2}`)
returns two zero-valued tokens, while the manual loop collects nothing. -/
theorem ScanAll_differs_from_ScanLoop :
    (Scanner.ScanAll { Buffer := [0x61, 0x62], Errors := [], Cursor := ⟨0x61, 0, 1⟩ } =
        some (.ok ([{ Rune := 0, Start := 0, End := 0, Buffer := none },
                    { Rune := 0x62, Start := 1, End := 2, Buffer := some [0x61, 0x62] }], true,
                   { Buffer := [0x61, 0x62], Errors := [], Cursor := ⟨0x62, 1, 2⟩ })) ∧
      Scanner.ScanLoop { Buffer := [0x61, 0x62], Errors := [], Cursor := ⟨0x61, 0, 1⟩ } =
        some (.ok ([{ Rune := 0x62, Start := 1, End := 2, Buffer := some [0x61, 0x62] }],
                   { Buffer := [0x61, 0x62], Errors := [], Cursor := ⟨0x62, 1, 2⟩ }))) ∧
    (Scanner.ScanAll { Buffer := [0x61, 0x62], Errors := [], Cursor := ⟨0x62, 1, 2⟩ } =
        some (.ok ([{ Rune := 0, Start := 0, End := 0, Buffer := none },
                    { Rune := 0, Start := 0, End := 0, Buffer := none }], true,
                   { Buffer := [0x61, 0x62], Errors := [], Cursor := ⟨0x62, 1, 2⟩ })) ∧
      Scanner.ScanLoop { Buffer := [0x61, 0x62], Errors := [], Cursor := ⟨0x62, 1, 2⟩ } =
        some (.ok ([], { Buffer := [0x61, 0x62], Errors := [], Cursor := ⟨0x62, 1, 2⟩ }))) := by
  refine ⟨⟨rfl, rfl⟩, ⟨rfl, rfl⟩⟩

/-! ## The three outcomes of `Scan` and the shape of the loop -/

/-- With a cursor that is not negative, `Scan` does not panic and has one of
three outcomes: the buffer is exhausted, the decode fails, or the cursor
advances by one to four bytes within the buffer. -/
theorem Scan_cases (s : Scanner) (hlen : (s.Buffer.length : Int) ≤ maxInt)
    (h0 : 0 ≤ s.Cursor.End) :
    ((s.Buffer.length : Int) ≤ s.Cursor.End ∧ s.Scan = .ok (false, s)) ∨
    (s.Cursor.End < (s.Buffer.length : Int) ∧
      s.Scan = .ok (false, { s with Errors := s.Errors ++ [Error.ErrRuneError] })) ∨
    (∃ s1, s.Scan = .ok (true, s1) ∧ s1.Buffer = s.Buffer ∧ s1.Errors = s.Errors ∧
      s1.Cursor.Start = s.Cursor.End ∧ s.Cursor.End < s1.Cursor.End ∧
      s1.Cursor.End ≤ s.Cursor.End + 4 ∧ s1.Cursor.End ≤ (s.Buffer.length : Int)) := by
  by_cases hend : s.Cursor.End ≥ (s.Buffer.length : Int)
  · exact Or.inl ⟨hend, Scan_at_end s hend⟩
  · have h1 : s.Cursor.End < (s.Buffer.length : Int) := by omega
    by_cases hok : s.Buffer.getD s.Cursor.End.toNat 0 < 0x80 ∨
        (DecodeRune (s.Buffer.drop s.Cursor.End.toNat)).1 ≠ RuneError
    · have hs := Scan_decoded s hlen h0 h1 hok
      exact Or.inr (Or.inr ⟨_, hs, Scan_true_advance s _ hlen hs⟩)
    · refine Or.inr (Or.inl ⟨h1, ?_⟩)
      rw [Scan_inside s h0 h1, if_pos (by unfold RuneSelf; omega), if_pos (by
        by_contra hne
        exact hok (Or.inr hne))]

/-- The tokens already collected pass through the loop untouched. -/
theorem scanLoop_acc (fuel : Nat) :
    ∀ (s : Scanner) (acc : List Token),
      scanLoop fuel s acc =
        (scanLoop fuel s []).map (fun r => r.map (fun p => (acc ++ p.1, p.2))) := by
  induction fuel with
  | zero => intro s acc; rfl
  | succ f ih =>
    intro s acc
    unfold scanLoop
    cases hs : s.Scan with
    | error e => rfl
    | ok p =>
      obtain ⟨b, s1⟩ := p
      cases b with
      | false => simp [Except.map]
      | true =>
        simp only []
        rw [ih s1 (acc ++ [s1.Token]), ih s1 ([] ++ [s1.Token])]
        cases hl : scanLoop f s1 [] with
        | none => rfl
        | some r =>
          cases r with
          | error e => rfl
          | ok q => simp [Except.map]

/-- The loop entered with a cursor that is not negative ends without a panic:
it appends at most one token per byte left after the cursor, never moves the
cursor backwards, and stops either at the end of the buffer with the error list
as it was, or inside the buffer with one `ErrRuneError` appended. -/
theorem scanLoop_spec (fuel : Nat) :
    ∀ (s : Scanner), (s.Buffer.length : Int) ≤ maxInt → 0 ≤ s.Cursor.End →
      ((s.Buffer.length : Int) - s.Cursor.End).toNat < fuel →
      ∃ (scanned : List Token) (fin : Scanner),
        scanLoop fuel s [] = some (.ok (scanned, fin)) ∧
        scanned.length ≤ ((s.Buffer.length : Int) - s.Cursor.End).toNat ∧
        fin.Buffer = s.Buffer ∧ s.Cursor.End ≤ fin.Cursor.End ∧
        (scanned = [] → fin.Cursor = s.Cursor) ∧
        (((fin.Buffer.length : Int) ≤ fin.Cursor.End ∧ fin.Errors = s.Errors) ∨
         (fin.Cursor.End < (fin.Buffer.length : Int) ∧
           fin.Errors = s.Errors ++ [Error.ErrRuneError])) := by
  induction fuel with
  | zero => intro s _ _ h; omega
  | succ f ih =>
    intro s hlen h0 hf
    unfold scanLoop
    rcases Scan_cases s hlen h0 with ⟨he, hs⟩ | ⟨he, hs⟩ | ⟨s1, hs, hB, hE, -, hlt, -, hle⟩
    · rw [hs]
      exact ⟨[], s, rfl, by simp, rfl, by omega, fun _ => rfl, Or.inl ⟨he, rfl⟩⟩
    · rw [hs]
      exact ⟨[], _, rfl, by simp, rfl, by simp, fun _ => rfl, Or.inr ⟨he, rfl⟩⟩
    · rw [hs]
      simp only []
      obtain ⟨scanned, fin, h1, h2, h3, h4, -, h6⟩ :=
        ih s1 (by rw [hB]; exact hlen) (by omega) (by rw [hB]; omega)
      rw [scanLoop_acc f s1 ([] ++ [s1.Token]), h1]
      refine ⟨s1.Token :: scanned, fin, by simp [Except.map], ?_, by rw [h3, hB], by omega,
        (fun h => by cases h), ?_⟩
      · rw [hB] at h2
        simp only [List.length_cons]
        omega
      · rw [hE] at h6
        exact h6

/-- `ScanAll` entered with a cursor that is not negative and small enough for
`make` returns the zero-valued tokens that `make` creates followed by the tokens
the manual loop collects, and the flag tells whether the error list is empty
when the loop stops. -/
theorem ScanAll_spec (s : Scanner) (hlen : (s.Buffer.length : Int) ≤ maxInt)
    (h0 : 0 ≤ s.Cursor.End) (hmax : tokenSize * s.Cursor.End ≤ maxAlloc) :
    ∃ (scanned : List Token) (fin : Scanner),
      s.ScanLoop = some (.ok (scanned, fin)) ∧
      s.ScanAll = some (.ok
        (List.replicate s.Cursor.End.toNat { Rune := 0, Start := 0, End := 0, Buffer := none } ++
          scanned, !fin.Errored, fin)) ∧
      scanned.length ≤ ((s.Buffer.length : Int) - s.Cursor.End).toNat ∧
      fin.Buffer = s.Buffer ∧ s.Cursor.End ≤ fin.Cursor.End ∧
      (scanned = [] → fin.Cursor = s.Cursor) ∧
      (((fin.Buffer.length : Int) ≤ fin.Cursor.End ∧ fin.Errors = s.Errors) ∨
       (fin.Cursor.End < (fin.Buffer.length : Int) ∧
         fin.Errors = s.Errors ++ [Error.ErrRuneError])) := by
  obtain ⟨scanned, fin, h1, h2, h3, h4, h5, h6⟩ :=
    scanLoop_spec (loopFuel s) s hlen h0 (by unfold loopFuel; omega)
  refine ⟨scanned, fin, h1, ?_, h2, h3, h4, h5, h6⟩
  unfold Scanner.ScanAll Scanner.ScanAllFuel
  rw [makeTokens_ok _ h0 hmax]
  simp only []
  rw [scanLoop_acc, h1]
  cases he : fin.Errored <;> simp [Except.map, he]

/-- `ScanAll` entered with a cursor that is negative or too large for `make`
panics before its loop starts. -/
theorem ScanAll_make_panic (s : Scanner)
    (h : s.Cursor.End < 0 ∨ tokenSize * s.Cursor.End > maxAlloc) :
    s.ScanAll = some (.error Panic.makesliceLenOutOfRange) := by
  unfold Scanner.ScanAll Scanner.ScanAllFuel
  rw [makeTokens_panic _ h]

/-- A property of the scanner that every `Scan` preserves holds when the loop
stops, and every token the loop collects is the token of a state with that
property. -/
theorem scanLoop_invariant (P : Scanner → Prop) (Q : Token → Prop)
    (hstep : ∀ s b s1, P s → s.Scan = .ok (b, s1) → P s1)
    (hQ : ∀ s, P s → Q s.Token) (fuel : Nat) :
    ∀ (s : Scanner) (acc toks : List Token) (fin : Scanner), P s → (∀ t ∈ acc, Q t) →
      scanLoop fuel s acc = some (.ok (toks, fin)) → P fin ∧ ∀ t ∈ toks, Q t := by
  induction fuel with
  | zero => intro s acc toks fin _ _ h; cases h
  | succ f ih =>
    intro s acc toks fin hP hacc h
    unfold scanLoop at h
    cases hs : s.Scan with
    | error e => rw [hs] at h; cases h
    | ok p =>
      obtain ⟨b, s1⟩ := p
      rw [hs] at h
      have hP1 := hstep s b s1 hP hs
      cases b with
      | false =>
        simp only [Option.some.injEq, Except.ok.injEq, Prod.mk.injEq] at h
        obtain ⟨h1, h2⟩ := h
        subst h1 h2
        exact ⟨hP1, hacc⟩
      | true =>
        simp only [] at h
        refine ih s1 _ toks fin hP1 ?_ h
        intro t ht
        rcases List.mem_append.1 ht with h' | h'
        · exact hacc t h'
        · rw [List.mem_singleton] at h'
          rw [h']
          exact hQ s1 hP1

/-- `Scan` never writes to `Buffer`. -/
theorem Scan_Buffer (s : Scanner) (b : Bool) (s1 : Scanner)
    (hlen : (s.Buffer.length : Int) ≤ maxInt) (h : s.Scan = .ok (b, s1)) :
    s1.Buffer = s.Buffer := by
  cases b with
  | false => exact (Scan_false_frame s s1 h).1
  | true => exact (Scan_true_advance s s1 hlen h).1

/-- Every token the loop collects points to the buffer of the scanner. -/
theorem scanLoop_token_Buffer (s : Scanner) (hlen : (s.Buffer.length : Int) ≤ maxInt)
    (fuel : Nat) (toks : List Token) (fin : Scanner)
    (h : scanLoop fuel s [] = some (.ok (toks, fin))) :
    ∀ t ∈ toks, t.Buffer = some s.Buffer := by
  have := scanLoop_invariant (fun x => x.Buffer = s.Buffer) (fun t => t.Buffer = some s.Buffer)
    (fun x b x1 hx hs => by
      have hx' : x.Buffer = s.Buffer := hx
      show x1.Buffer = s.Buffer
      rw [Scan_Buffer x b x1 (by rw [hx']; exact hlen) hs]; exact hx')
    (fun x hx => by
      show some x.Buffer = some s.Buffer
      rw [hx])
    fuel s [] toks fin rfl (fun t ht => by cases ht) h
  exact this.2

/-- Claim C11 as amended: for every scanner state with `Cursor.End >= 0` small
enough for `make([]Token, Cursor.End)` (`32 * Cursor.End <= maxAlloc`), `ScanAll`
returns the flag false if and only if the error list is not empty when its loop
stops; when `ScanAll` is called with an empty error list, the flag is true if
and only if the `Scan` that ended the loop failed with `Cursor.End >=
len(Buffer)`, that is, false if and only if the scanning stopped on a decode
error. -/
theorem ScanAll_flag (s : Scanner) (hlen : (s.Buffer.length : Int) ≤ maxInt)
    (h0 : 0 ≤ s.Cursor.End) (hmax : tokenSize * s.Cursor.End ≤ maxAlloc) :
    ∃ (toks : List Token) (flag : Bool) (fin : Scanner),
      s.ScanAll = some (.ok (toks, flag, fin)) ∧
      (flag = false ↔ fin.Errors ≠ []) ∧
      (s.Errors = [] → (flag = true ↔ (fin.Buffer.length : Int) ≤ fin.Cursor.End)) ∧
      (s.Errors = [] → (flag = false ↔ fin.Cursor.End < (fin.Buffer.length : Int) ∧
        fin.Errors = [Error.ErrRuneError])) := by
  obtain ⟨scanned, fin, -, h2, -, -, -, -, h7⟩ := ScanAll_spec s hlen h0 hmax
  refine ⟨_, _, fin, h2, ?_, ?_, ?_⟩
  · cases hE : fin.Errors <;> simp [Scanner.Errored, hE]
  · intro hs
    rcases h7 with ⟨ha, hb⟩ | ⟨ha, hb⟩
    · rw [hs] at hb
      simp [Scanner.Errored, hb, ha]
    · rw [hs] at hb
      simp only [Scanner.Errored, hb, List.nil_append, List.length_singleton]
      constructor
      · intro h; simp at h
      · intro h; omega
  · intro hs
    rcases h7 with ⟨ha, hb⟩ | ⟨ha, hb⟩
    · rw [hs] at hb
      simp only [Scanner.Errored, hb, List.length_nil]
      constructor
      · intro h; simp at h
      · intro h; omega
    · rw [hs] at hb
      simp [Scanner.Errored, hb, ha]

/-- Claim C11 as amended, on `"a"` followed by the invalid byte FF: the loop
stops on the decode error and the flag is false. -/
theorem ScanAll_flag_witness :
    ∃ (toks : List Token) (flag : Bool) (fin : Scanner),
      Scanner.ScanAll (fresh [0x61, 0xFF]) = some (.ok (toks, flag, fin)) ∧
      (flag = false ↔ fin.Errors ≠ []) ∧
      ((fresh [0x61, 0xFF]).Errors = [] →
        (flag = true ↔ (fin.Buffer.length : Int) ≤ fin.Cursor.End)) ∧
      ((fresh [0x61, 0xFF]).Errors = [] →
        (flag = false ↔ fin.Cursor.End < (fin.Buffer.length : Int) ∧
          fin.Errors = [Error.ErrRuneError])) :=
  ScanAll_flag (fresh [0x61, 0xFF]) (by decide) (by decide) (by decide)

/-- Claim C11 as stated fails: on the buffer `FF 61`, after a `Scan` that fails
on the byte FF and a `Goto` to offset 1, `ScanAll` scans `a`, stops because the
buffer is exhausted (`Cursor.End = 2 = len(Buffer)`) and still returns the flag
false, because the error of the earlier `Scan` is in the list. And on `"ab"`
after a `Goto` to `End = 9223372036854775807` or to `End = 17592186044416`,
`ScanAll` returns no flag at all: `make` panics before the loop. -/
theorem ScanAll_flag_counterexample :
    (Session.start [0xFF, 0x61]).run
        [Op.Scan, Op.Goto { Rune := 0, Start := 0, End := 1, Buffer := none }] =
      some { scanner := { Buffer := [0xFF, 0x61], Errors := [Error.ErrRuneError],
                          Cursor := ⟨0, 0, 1⟩ },
             emitted := [] } ∧
    Scanner.ScanAll { Buffer := [0xFF, 0x61], Errors := [Error.ErrRuneError],
                      Cursor := ⟨0, 0, 1⟩ } =
      some (.ok ([{ Rune := 0, Start := 0, End := 0, Buffer := none },
                  { Rune := 0x61, Start := 1, End := 2, Buffer := some [0xFF, 0x61] }], false,
                 { Buffer := [0xFF, 0x61], Errors := [Error.ErrRuneError],
                   Cursor := ⟨0x61, 1, 2⟩ })) ∧
    Scanner.Scan { Buffer := [0xFF, 0x61], Errors := [Error.ErrRuneError],
                   Cursor := ⟨0x61, 1, 2⟩ } =
      .ok (false, { Buffer := [0xFF, 0x61], Errors := [Error.ErrRuneError],
                    Cursor := ⟨0x61, 1, 2⟩ }) ∧
    Scanner.ScanAll ((fresh [0x61, 0x62]).Goto
        { Rune := 0, Start := 0, End := 9223372036854775807, Buffer := none }) =
      some (.error Panic.makesliceLenOutOfRange) ∧
    Scanner.ScanAll ((fresh [0x61, 0x62]).Goto
        { Rune := 0, Start := 0, End := 17592186044416, Buffer := none }) =
      some (.error Panic.makesliceLenOutOfRange) := by
  refine ⟨rfl, rfl, rfl, rfl, rfl⟩

/-- Claim C12, the result of `New`: it returns an error and no scanner exactly
when the reader is nil (the error is `ErrNilIOReader`) or reading it to
completion fails (the read error is returned); otherwise it returns a scanner
whose `Buffer` is the bytes read, whose `Cursor` is `Zero` and whose error list
is empty. -/
theorem New_result (r : Option Reader) :
    (r = none → New r = .error Error.ErrNilIOReader) ∧
    (∀ rd e, r = some rd → (ReadAll rd).2 = some e → New r = .error e) ∧
    (∀ rd, r = some rd → (ReadAll rd).2 = none →
      New r = .ok { Buffer := (ReadAll rd).1, Errors := [], Cursor := Zero } ∧
      ∀ s, New r = .ok s → s.Buffer.length = (ReadAll rd).1.length ∧ s.Errored = false) ∧
    ((∃ e, New r = .error e) ↔ (r = none ∨ ∃ rd e, r = some rd ∧ (ReadAll rd).2 = some e)) := by
  refine ⟨?_, ?_, ?_, ?_⟩
  · intro h; subst h; rfl
  · intro rd e h he
    subst h
    obtain ⟨d, er⟩ := rd
    simp only [ReadAll] at he
    subst he
    rfl
  · intro rd h he
    subst h
    obtain ⟨d, er⟩ := rd
    simp only [ReadAll] at he
    subst he
    refine ⟨rfl, ?_⟩
    intro s hs
    cases hs
    exact ⟨rfl, rfl⟩
  · constructor
    · rintro ⟨e, he⟩
      cases r with
      | none => exact Or.inl rfl
      | some rd =>
        obtain ⟨d, er⟩ := rd
        cases er with
        | none => cases he
        | some e1 => exact Or.inr ⟨_, e1, rfl, rfl⟩
    · rintro (h | ⟨rd, e, h, he⟩)
      · subst h; exact ⟨_, rfl⟩
      · subst h
        obtain ⟨d, er⟩ := rd
        simp only [ReadAll] at he
        subst he
        exact ⟨e, rfl⟩

/-- Claim C18, monotone advance and termination: for every scanner state with
`Cursor.End >= 0`, `Scan` returns without a panic, never decreases `Cursor.End`,
and returns true if and only if `Cursor.End` strictly increases, then by 1 to 4
and not beyond `len(Buffer)`; and the loop of `ScanAll` ends after a number of
successful Scans (one collected token each) that is at most the number of bytes
left after the cursor, `len(Buffer) - Cursor.End` (none when the cursor is
already past the end): `ScanAll` returns the slice of `make` followed by the
collected tokens, or, when `Cursor.End` is too large for `make`, panics before
the loop starts. -/
theorem Scan_monotone_ScanAll_terminates (s : Scanner)
    (hlen : (s.Buffer.length : Int) ≤ maxInt) (h0 : 0 ≤ s.Cursor.End) :
    (∃ (b : Bool) (s1 : Scanner), s.Scan = .ok (b, s1) ∧
      s.Cursor.End ≤ s1.Cursor.End ∧
      (b = true ↔ s.Cursor.End < s1.Cursor.End) ∧
      (b = true → s.Cursor.End + 1 ≤ s1.Cursor.End ∧ s1.Cursor.End ≤ s.Cursor.End + 4 ∧
        s1.Cursor.End ≤ (s.Buffer.length : Int))) ∧
    (∃ (scanned : List Token) (fin : Scanner),
      s.ScanLoop = some (.ok (scanned, fin)) ∧
      (tokenSize * s.Cursor.End ≤ maxAlloc →
        s.ScanAll = some (.ok
          (List.replicate s.Cursor.End.toNat
              { Rune := 0, Start := 0, End := 0, Buffer := none } ++ scanned,
            !fin.Errored, fin))) ∧
      (tokenSize * s.Cursor.End > maxAlloc →
        s.ScanAll = some (.error Panic.makesliceLenOutOfRange)) ∧
      scanned.length ≤ ((s.Buffer.length : Int) - s.Cursor.End).toNat ∧
      (s.Cursor.End ≤ (s.Buffer.length : Int) →
        (scanned.length : Int) ≤ (s.Buffer.length : Int) - s.Cursor.End) ∧
      ((s.Buffer.length : Int) < s.Cursor.End → scanned = [])) := by
  constructor
  · rcases Scan_cases s hlen h0 with ⟨-, hs⟩ | ⟨-, hs⟩ | ⟨s1, hs, -, -, -, hlt, hle4, hle⟩
    · exact ⟨false, s, hs, Int.le_refl _, by simp, by simp⟩
    · exact ⟨false, _, hs, Int.le_refl _, by simp, by simp⟩
    · exact ⟨true, s1, hs, by omega, by simp [hlt], fun _ => ⟨by omega, hle4, hle⟩⟩
  · obtain ⟨scanned, fin, h1, h3, -, -, -, -⟩ :=
      scanLoop_spec (loopFuel s) s hlen h0 (by unfold loopFuel; omega)
    refine ⟨scanned, fin, h1, ?_, ?_, h3, ?_, ?_⟩
    · intro hmax
      unfold Scanner.ScanAll Scanner.ScanAllFuel
      rw [makeTokens_ok _ h0 hmax]
      simp only []
      rw [scanLoop_acc, h1]
      cases he : fin.Errored <;> simp [Except.map, he]
    · intro hbig
      exact ScanAll_make_panic s (Or.inr hbig)
    · intro hle
      omega
    · intro hgt
      have : scanned.length = 0 := by omega
      exact List.length_eq_zero.1 this

/-- Claim C18 on `"a"` followed by the three bytes of U+67F3, with the cursor
after `a`: `Scan` advances by three bytes, to the end of the buffer. -/
theorem Scan_monotone_ScanAll_terminates_witness :
    ∃ (b : Bool) (s1 : Scanner),
      Scanner.Scan { Buffer := [0x61, 0xE6, 0x9F, 0xB3], Errors := [], Cursor := ⟨0x61, 0, 1⟩ } =
        .ok (b, s1) ∧
      (1 : Int) ≤ s1.Cursor.End ∧ (b = true ↔ (1 : Int) < s1.Cursor.End) ∧
      (b = true → (1 : Int) + 1 ≤ s1.Cursor.End ∧ s1.Cursor.End ≤ 1 + 4 ∧
        s1.Cursor.End ≤ ((4 : Nat) : Int)) :=
  (Scan_monotone_ScanAll_terminates
    { Buffer := [0x61, 0xE6, 0x9F, 0xB3], Errors := [], Cursor := ⟨0x61, 0, 1⟩ }
    (by decide) (by decide)).1

/-- Claim C19 as amended, the shape of the result of `ScanAll`: for every
scanner state with `Cursor.End = e >= 0` small enough for `make([]Token, e)`
(`32 * e <= maxAlloc`), the slice returned has length `e + k`, where `k` is the
number of Scans that succeeded (the tokens the manual loop collects from the
same state); its first `e` entries are zero-valued tokens with a nil buffer and
its last `k` entries are the scanned tokens in order; so the result is the
scanned tokens alone, and every entry points to the buffer, exactly when
`ScanAll` is started with `Cursor.End = 0`. -/
theorem ScanAll_shape (s : Scanner) (hlen : (s.Buffer.length : Int) ≤ maxInt)
    (h0 : 0 ≤ s.Cursor.End) (hmax : tokenSize * s.Cursor.End ≤ maxAlloc) :
    ∃ (scanned toks : List Token) (flag : Bool) (fin : Scanner),
      s.ScanLoop = some (.ok (scanned, fin)) ∧
      s.ScanAll = some (.ok (toks, flag, fin)) ∧
      toks.length = s.Cursor.End.toNat + scanned.length ∧
      toks.take s.Cursor.End.toNat =
        List.replicate s.Cursor.End.toNat { Rune := 0, Start := 0, End := 0, Buffer := none } ∧
      toks.drop s.Cursor.End.toNat = scanned ∧
      (∀ t ∈ scanned, t.Buffer = some s.Buffer) ∧
      (toks = scanned ↔ s.Cursor.End = 0) ∧
      ((∀ t ∈ toks, t.Buffer = some s.Buffer) ↔ s.Cursor.End = 0) := by
  obtain ⟨scanned, fin, h1, h2, -, -, -, -, -⟩ := ScanAll_spec s hlen h0 hmax
  have hbuf := scanLoop_token_Buffer s hlen (loopFuel s) scanned fin h1
  refine ⟨scanned, _, _, fin, h1, h2, by simp, ?_, ?_, hbuf, ?_, ?_⟩
  · rw [List.take_left']
    simp
  · rw [List.drop_left']
    simp
  · constructor
    · intro h
      have hl := congrArg List.length h
      simp only [List.length_append, List.length_replicate] at hl
      omega
    · intro h
      rw [h]
      simp
  · constructor
    · intro h
      by_contra hne
      have hpos : 0 < s.Cursor.End.toNat := by omega
      have hmem : ({ Rune := 0, Start := 0, End := 0, Buffer := none } : Token) ∈
          List.replicate s.Cursor.End.toNat
            ({ Rune := 0, Start := 0, End := 0, Buffer := none } : Token) ++ scanned := by
        rw [List.mem_append, List.mem_replicate]
        exact Or.inl ⟨by omega, rfl⟩
      have := h _ hmem
      cases this
    · intro h t ht
      rw [h] at ht
      simp only [Int.toNat_zero, List.replicate_zero, List.nil_append] at ht
      exact hbuf t ht

/-- Claim C19 as amended, on `"ab"` with the cursor after `a`: one zero-valued
token, then the token of `b`. -/
theorem ScanAll_shape_witness :
    ∃ (scanned toks : List Token) (flag : Bool) (fin : Scanner),
      Scanner.ScanLoop { Buffer := [0x61, 0x62], Errors := [], Cursor := ⟨0x61, 0, 1⟩ } =
        some (.ok (scanned, fin)) ∧
      Scanner.ScanAll { Buffer := [0x61, 0x62], Errors := [], Cursor := ⟨0x61, 0, 1⟩ } =
        some (.ok (toks, flag, fin)) ∧
      toks.length = 1 + scanned.length ∧
      toks.take 1 = [{ Rune := 0, Start := 0, End := 0, Buffer := none }] ∧
      toks.drop 1 = scanned := by
  obtain ⟨scanned, toks, flag, fin, h1, h2, h3, h4, h5, -⟩ :=
    ScanAll_shape { Buffer := [0x61, 0x62], Errors := [], Cursor := ⟨0x61, 0, 1⟩ }
      (by decide) (by decide) (by decide)
  exact ⟨scanned, toks, flag, fin, h1, h2, h3, h4, h5⟩

/-- Claim C19 as stated fails: on `"ab"` after a `Goto` to `End =
9223372036854775807`, and likewise to `End = 17592186044416`, `ScanAll` returns
no slice: `make([]Token, Cursor.End)` panics with `len out of range`. -/
theorem ScanAll_shape_counterexample :
    Scanner.ScanAll ((fresh [0x61, 0x62]).Goto
        { Rune := 0, Start := 0, End := 9223372036854775807, Buffer := none }) =
      some (.error Panic.makesliceLenOutOfRange) ∧
    Scanner.ScanAll ((fresh [0x61, 0x62]).Goto
        { Rune := 0, Start := 0, End := 17592186044416, Buffer := none }) =
      some (.error Panic.makesliceLenOutOfRange) := by
  exact ⟨rfl, rfl⟩

/-! ## Repeated scans -/

/-- The outcome of `Scan` is fixed by `Buffer` and `Cursor.End`: two states that
agree on them panic alike or return the same boolean, with the same new cursor
after a success and with each cursor left as it was after a failure. -/
theorem Scan_depends (a b : Scanner) (hB : a.Buffer = b.Buffer)
    (hE : a.Cursor.End = b.Cursor.End) :
    (∀ e, a.Scan = .error e → b.Scan = .error e) ∧
    (∀ bo a1, a.Scan = .ok (bo, a1) → ∃ b1, b.Scan = .ok (bo, b1) ∧
      b1.Buffer = a1.Buffer ∧ (bo = true → b1.Cursor = a1.Cursor) ∧
      (bo = false → a1.Cursor = a.Cursor ∧ b1.Cursor = b.Cursor)) := by
  by_cases hend : a.Cursor.End ≥ (a.Buffer.length : Int)
  · rw [Scan_at_end a hend, Scan_at_end b (by rw [← hB, ← hE]; exact hend)]
    refine ⟨(fun e h => by cases h), ?_⟩
    intro bo a1 h
    cases h
    exact ⟨b, rfl, hB.symm, (fun h => by cases h), fun _ => ⟨rfl, rfl⟩⟩
  · by_cases hneg : a.Cursor.End < 0
    · rw [Scan_negative a hneg, Scan_negative b (by rw [← hE]; exact hneg)]
      exact ⟨fun e h => h, fun bo a1 h => by cases h⟩
    · rw [Scan_inside a (by omega) (by omega),
        Scan_inside b (by rw [← hE]; omega) (by rw [← hB, ← hE]; omega), ← hB, ← hE]
      by_cases h1 : a.Buffer.getD a.Cursor.End.toNat 0 ≥ RuneSelf
      · rw [if_pos h1, if_pos h1]
        by_cases h2 : (DecodeRune (a.Buffer.drop a.Cursor.End.toNat)).1 = RuneError
        · rw [if_pos h2, if_pos h2]
          refine ⟨(fun e h => by cases h), ?_⟩
          intro bo a1 h
          cases h
          exact ⟨_, rfl, rfl, (fun h => by cases h), fun _ => ⟨rfl, rfl⟩⟩
        · rw [if_neg h2, if_neg h2]
          refine ⟨(fun e h => by cases h), ?_⟩
          intro bo a1 h
          cases h
          exact ⟨_, rfl, rfl, fun _ => rfl, fun h => by cases h⟩
      · rw [if_neg h1, if_neg h1]
        refine ⟨(fun e h => by cases h), ?_⟩
        intro bo a1 h
        cases h
        exact ⟨_, rfl, rfl, fun _ => rfl, fun h => by cases h⟩

/-- Two states with the same buffer and the same cursor go through the same
booleans and tokens, whatever their error lists. -/
theorem scanSeq_congr (n : Nat) :
    ∀ (a b : Scanner), a.Buffer = b.Buffer → a.Cursor = b.Cursor →
      (scanSeq n a).map Prod.fst = (scanSeq n b).map Prod.fst := by
  induction n with
  | zero => intro a b _ _; rfl
  | succ n ih =>
    intro a b hB hC
    obtain ⟨herr, hok⟩ := Scan_depends a b hB (by rw [hC])
    unfold scanSeq
    cases hs : a.Scan with
    | error e => rw [herr e hs]
    | ok p =>
      obtain ⟨bo, a1⟩ := p
      obtain ⟨b1, hb, hB1, ht, hf⟩ := hok bo a1 hs
      rw [hb]
      simp only []
      have hC1 : a1.Cursor = b1.Cursor := by
        cases bo with
        | true => exact (ht rfl).symm
        | false =>
          obtain ⟨h1, h2⟩ := hf rfl
          rw [h1, h2, hC]
      have hT : a1.Token = b1.Token := by
        unfold Scanner.Token
        rw [hC1, hB1]
      have := ih a1 b1 hB1.symm hC1
      cases h1 : scanSeq n a1 with
      | error e =>
        rw [h1] at this
        cases h2 : scanSeq n b1 with
        | error e2 =>
          rw [h2] at this
          simp only [Except.map, Except.error.injEq] at this ⊢
          exact this
        | ok q => rw [h2] at this; simp [Except.map] at this
      | ok q =>
        rw [h1] at this
        cases h2 : scanSeq n b1 with
        | error e2 => rw [h2] at this; simp [Except.map] at this
        | ok q2 =>
          rw [h2] at this
          simp only [Except.map, Except.ok.injEq] at this ⊢
          rw [hT, this]

/-- At a decode error every further `Scan` fails the same way: `k` more calls
return false, leave the cursor alone and append `k` errors. -/
theorem scanSeq_decode_error (s : Scanner) (h0 : 0 ≤ s.Cursor.End)
    (h1 : s.Cursor.End < (s.Buffer.length : Int))
    (hb : 0x80 ≤ s.Buffer.getD s.Cursor.End.toNat 0)
    (hr : (DecodeRune (s.Buffer.drop s.Cursor.End.toNat)).1 = RuneError) (k : Nat) :
    ∀ errs : List Error,
      scanSeq k { s with Errors := errs } =
        .ok (List.replicate k (false, s.Token),
          { s with Errors := errs ++ List.replicate k Error.ErrRuneError }) := by
  induction k with
  | zero => intro errs; simp [scanSeq]
  | succ k ih =>
    intro errs
    have hs : Scanner.Scan { s with Errors := errs } =
        .ok (false, { s with Errors := errs ++ [Error.ErrRuneError] }) := by
      rw [Scan_inside { s with Errors := errs } h0 h1, if_pos (by unfold RuneSelf; exact hb),
        if_pos hr]
    unfold scanSeq
    rw [hs]
    simp only []
    rw [ih (errs ++ [Error.ErrRuneError])]
    simp only [List.replicate_succ, List.append_assoc, List.singleton_append]
    rfl

/-- After a `Goto` to a token whose `End` is not negative, `Scan` returns
without a panic, and so does `Peek(v)` when `End + len(v)` does not overflow. -/
theorem Goto_then_Scan_Peek_safe (s : Scanner) (t : Token)
    (hlen : (s.Buffer.length : Int) ≤ maxInt) (h0 : 0 ≤ t.End) :
    (∃ b s1, (s.Goto t).Scan = .ok (b, s1)) ∧
    (∀ v : List Nat, t.End + (v.length : Int) ≤ maxInt → ∃ b, (s.Goto t).Peek v = .ok b) := by
  constructor
  · rcases Scan_cases (s.Goto t) hlen h0 with ⟨-, hs⟩ | ⟨-, hs⟩ | ⟨s1, hs, -⟩
    · exact ⟨_, _, hs⟩
    · exact ⟨_, _, hs⟩
    · exact ⟨_, _, hs⟩
  · intro v hv
    exact ⟨_, Peek_in_range (s.Goto t) v h0 hv⟩

/-- Claim C15 at its failing input: on the scanner for `"ab"` moved by `Goto` to
a token with `End = -1`, `Scan` indexes `Buffer[-1]` and `Peek("a")` slices
`Buffer[-1:0]`: both panic instead of returning a result. -/
theorem Scan_Peek_after_Goto_negative_panic :
    Scanner.Scan ((fresh [0x61, 0x62]).Goto
        { Rune := 0, Start := 0, End := -1, Buffer := none }) =
      .error Panic.indexOutOfRange ∧
    Scanner.Peek ((fresh [0x61, 0x62]).Goto
        { Rune := 0, Start := 0, End := -1, Buffer := none }) [0x61] =
      .error Panic.sliceBoundsOutOfRange := by
  exact ⟨rfl, rfl⟩

/-- Claim C16, the text rendering: for every `Pos` whose `Rune` is a Unicode
scalar value, `String()` is `"{ "`, the character (the UTF-8 encoding of `Rune`,
which decodes back to `Rune`), a space, the decimal `Start`, a colon, the decimal
`End` and `" }"`; and the `String()` of a `Token` is the `String()` of its
`Position()`, whatever its buffer reference. -/
theorem String_rendering (p : Pos) (buffer : Option (List Nat)) (h0 : 0 ≤ p.Rune)
    (hs : isScalar p.Rune.toNat) :
    p.String = [0x7B, 0x20] ++ EncodeRune p.Rune.toNat ++ [0x20] ++ fmtD p.Start ++ [0x3A] ++
        fmtD p.End ++ [0x20, 0x7D] ∧
      DecodeRune (EncodeRune p.Rune.toNat) =
        (p.Rune.toNat, (EncodeRune p.Rune.toNat).length) ∧
      Token.String { toPos := p, Buffer := buffer } =
        (Token.Position { toPos := p, Buffer := buffer }).String ∧
      Token.String { toPos := p, Buffer := buffer } = p.String := by
  refine ⟨?_, ?_, rfl, rfl⟩
  · unfold Pos.String posFormat
    simp [Sprintf, formatVerb, fmtC, Int.not_lt.2 h0]
  · by_cases hne : p.Rune.toNat = RuneError
    · rw [hne]; decide
    · have := DecodeRune_EncodeRune p.Rune.toNat [] hs hne
      rw [List.append_nil] at this
      exact this

/-- Claim C16 on the cases of `TestTokenString`: `{ a 23:24 }`, and `{ 禪 2:5 }`
with the three bytes E7 A6 AA of U+79AA. -/
theorem String_rendering_witness :
    Pos.String { Rune := 0x61, Start := 23, End := 24 } =
        [0x7B, 0x20, 0x61, 0x20, 0x32, 0x33, 0x3A, 0x32, 0x34, 0x20, 0x7D] ∧
      Token.String { Rune := 0x79AA, Start := 2, End := 5, Buffer := none } =
        [0x7B, 0x20, 0xE7, 0xA6, 0xAA, 0x20, 0x32, 0x3A, 0x35, 0x20, 0x7D] := by
  have h1 := (String_rendering { Rune := 0x61, Start := 23, End := 24 } none
    (by decide) (by decide)).1
  have h2 := String_rendering { Rune := 0x79AA, Start := 2, End := 5 } none
    (by decide) (by decide)
  refine ⟨?_, ?_⟩
  · rw [h1]; decide
  · rw [h2.2.2.2, h2.1]; decide

/-- Claim C17, no progress past malformed input: if a `Scan` returns false with
the cursor inside the buffer (a decode error at offset `Cursor.End`), it has
appended one `ErrRuneError` and nothing else has changed; every further `Scan`
returns false and leaves the cursor at the same `Pos`, and after `k` such calls
the error list has grown by exactly `k`; `Reset`, `Goto`, `Token` and `Peek`
(on a `v` that fits in memory beside the buffer) still return their results on
that state. -/
theorem no_progress_past_decode_error (s s1 : Scanner)
    (hin : s.Cursor.End < (s.Buffer.length : Int)) (hs : s.Scan = .ok (false, s1)) :
    s1 = { s with Errors := s.Errors ++ [Error.ErrRuneError] } ∧
    (∀ k, scanSeq k s1 =
      .ok (List.replicate k (false, s.Token),
        { s1 with Errors := s1.Errors ++ List.replicate k Error.ErrRuneError })) ∧
    s1.Reset = fresh s.Buffer ∧
    (∀ t, (s1.Goto t).Cursor = t.Position ∧ (s1.Goto t).Buffer = s.Buffer) ∧
    s1.Token = s.Token ∧
    (∀ v : List Nat, (v.length : Int) + (s.Buffer.length : Int) ≤ maxInt →
      ∃ b, s1.Peek v = .ok b) := by
  have h0 : 0 ≤ s.Cursor.End := by
    by_contra hneg
    rw [Scan_negative s (by omega)] at hs
    cases hs
  have hs' := hs
  rw [Scan_inside s h0 hin] at hs'
  by_cases hb : s.Buffer.getD s.Cursor.End.toNat 0 ≥ RuneSelf
  · rw [if_pos hb] at hs'
    by_cases hr : (DecodeRune (s.Buffer.drop s.Cursor.End.toNat)).1 = RuneError
    · rw [if_pos hr] at hs'
      cases hs'
      refine ⟨rfl, ?_, rfl, fun t => ⟨rfl, rfl⟩, rfl, ?_⟩
      · intro k
        exact scanSeq_decode_error s h0 hin (by unfold RuneSelf at hb; omega) hr k
          (s.Errors ++ [Error.ErrRuneError])
      · intro v hv
        exact ⟨_, Peek_in_range { s with Errors := s.Errors ++ [Error.ErrRuneError] } v h0
          (by show s.Cursor.End + (v.length : Int) ≤ maxInt; omega)⟩
    · rw [if_neg hr] at hs'
      cases hs'
  · rw [if_neg hb] at hs'
    cases hs'

/-- Claim C17 on the buffer `61 FF` with the cursor after `a`: the `Scan` on the
byte FF fails, and three further Scans fail with three more errors. -/
theorem no_progress_past_decode_error_witness :
    scanSeq 3 { Buffer := [0x61, 0xFF], Errors := [Error.ErrRuneError], Cursor := ⟨0x61, 0, 1⟩ } =
      .ok ([(false, { Rune := 0x61, Start := 0, End := 1, Buffer := some [0x61, 0xFF] }),
            (false, { Rune := 0x61, Start := 0, End := 1, Buffer := some [0x61, 0xFF] }),
            (false, { Rune := 0x61, Start := 0, End := 1, Buffer := some [0x61, 0xFF] })],
           { Buffer := [0x61, 0xFF],
             Errors := [Error.ErrRuneError, Error.ErrRuneError, Error.ErrRuneError,
                        Error.ErrRuneError],
             Cursor := ⟨0x61, 0, 1⟩ }) :=
  (no_progress_past_decode_error
    { Buffer := [0x61, 0xFF], Errors := [], Cursor := ⟨0x61, 0, 1⟩ }
    { Buffer := [0x61, 0xFF], Errors := [Error.ErrRuneError], Cursor := ⟨0x61, 0, 1⟩ }
    (by decide) rfl).2.1 3

/-- Claim C20, replay determinism: two states with the same `Buffer` and the
same `Cursor.End`, whatever their `Cursor.Rune`, `Cursor.Start` and `Errors`,
panic alike or get the same boolean from `Scan`, and the same new cursor when it
is true (when it is false each cursor stays as it was); and after `Goto(t)` for
the token `t` of an earlier state `s0` of the scanner, any number of Scans gives
the booleans and tokens that the same Scans gave from `s0`. -/
theorem Scan_replay_determinism (a b : Scanner) (hB : a.Buffer = b.Buffer)
    (hE : a.Cursor.End = b.Cursor.End) :
    (∀ e, a.Scan = .error e ↔ b.Scan = .error e) ∧
    (∀ bo a1, a.Scan = .ok (bo, a1) → ∃ b1, b.Scan = .ok (bo, b1) ∧
      (bo = true → b1.Cursor = a1.Cursor) ∧
      (bo = false → a1.Cursor = a.Cursor ∧ b1.Cursor = b.Cursor)) ∧
    (∀ (s0 : Scanner) (n : Nat), s0.Buffer = a.Buffer →
      (scanSeq n (a.Goto s0.Token)).map Prod.fst = (scanSeq n s0).map Prod.fst) := by
  refine ⟨?_, ?_, ?_⟩
  · intro e
    exact ⟨(Scan_depends a b hB hE).1 e, (Scan_depends b a hB.symm hE.symm).1 e⟩
  · intro bo a1 h
    obtain ⟨b1, h1, -, h2, h3⟩ := (Scan_depends a b hB hE).2 bo a1 h
    exact ⟨b1, h1, h2, h3⟩
  · intro s0 n h0
    exact scanSeq_congr n (a.Goto s0.Token) s0 h0.symm rfl

/-- Claim C20 on `"Hello!"`: a state at offset 2 that carries a stale rune, a
stale start and an error scans the same `l 2:3` as the state reached by
scanning. -/
theorem Scan_replay_determinism_witness :
    ∃ b1, Scanner.Scan { Buffer := [0x48, 0x65, 0x6C, 0x6C, 0x6F, 0x21],
                         Errors := [Error.ErrRuneError], Cursor := ⟨0, 7, 2⟩ } =
        .ok (true, b1) ∧
      b1.Cursor = ⟨0x6C, 2, 3⟩ := by
  obtain ⟨b1, h1, h2, -⟩ := (Scan_replay_determinism
    { Buffer := [0x48, 0x65, 0x6C, 0x6C, 0x6F, 0x21], Errors := [], Cursor := ⟨0x65, 1, 2⟩ }
    { Buffer := [0x48, 0x65, 0x6C, 0x6C, 0x6F, 0x21], Errors := [Error.ErrRuneError],
      Cursor := ⟨0, 7, 2⟩ } rfl rfl).2.1 true
    { Buffer := [0x48, 0x65, 0x6C, 0x6C, 0x6F, 0x21], Errors := [], Cursor := ⟨0x6C, 2, 3⟩ } rfl
  exact ⟨b1, h1, h2 rfl⟩

/-! ## `DecodeRune` accepts only the encoding `EncodeRune` produces -/

/-- What a decode that does not yield `RuneError` has checked, when the leading
byte is at or above 0x80. -/
theorem DecodeRune_shape (p : List Nat) (h : 0x80 ≤ p.getD 0 0)
    (hr : (DecodeRune p).1 ≠ RuneError) :
    first (p.getD 0 0) < as ∧ (first (p.getD 0 0) &&& 7) ≤ p.length ∧
      (acceptRanges (first (p.getD 0 0) >>> 4)).1 ≤ p.getD 1 0 ∧
      p.getD 1 0 ≤ (acceptRanges (first (p.getD 0 0) >>> 4)).2 ∧
      (2 < first (p.getD 0 0) &&& 7 → 0x80 ≤ p.getD 2 0 ∧ p.getD 2 0 ≤ 0xBF) ∧
      (3 < first (p.getD 0 0) &&& 7 → 0x80 ≤ p.getD 3 0 ∧ p.getD 3 0 ≤ 0xBF) := by
  have h1 := first_high _ h
  unfold DecodeRune at hr
  simp only [] at hr
  generalize first (p.getD 0 0) = x at *
  unfold as locb hicb at *
  split_ifs at hr
  all_goals first
    | exact absurd rfl hr
    | omega

theorem list_two (p : List Nat) (h : 2 ≤ p.length) :
    p = p.getD 0 0 :: p.getD 1 0 :: p.drop 2 := by
  match p, h with
  | a :: b :: t, _ => rfl

theorem list_three (p : List Nat) (h : 3 ≤ p.length) :
    p = p.getD 0 0 :: p.getD 1 0 :: p.getD 2 0 :: p.drop 3 := by
  match p, h with
  | a :: b :: c :: t, _ => rfl

theorem list_four (p : List Nat) (h : 4 ≤ p.length) :
    p = p.getD 0 0 :: p.getD 1 0 :: p.getD 2 0 :: p.getD 3 0 :: p.drop 4 := by
  match p, h with
  | a :: b :: c :: d :: t, _ => rfl

/-- A valid two-byte sequence is the encoding of the rune it decodes to. -/
theorem canonical2 (p0 b1 : Nat) (rest : List Nat) (h0 : 0xC2 ≤ p0) (h0' : p0 ≤ 0xDF)
    (h1 : 0x80 ≤ b1) (h1' : b1 ≤ 0xBF) :
    DecodeRune (p0 :: b1 :: rest) = (p0 % 32 * 64 + b1 % 64, 2) ∧
      EncodeRune (p0 % 32 * 64 + b1 % 64) = [p0, b1] := by
  have hf := first_two p0 h0 h0'
  refine ⟨DecodeRune_sz2 p0 b1 rest (by rw [hf]; decide) (by rw [hf]; decide)
    (by rw [hf]; simp [acceptRanges, locb]; omega) (by rw [hf]; simp [acceptRanges, hicb]; omega),
    ?_⟩
  rw [EncodeRune_two _ (by omega) (by omega)]
  congr 1
  · omega
  · congr 1; omega

/-- A valid three-byte sequence is the encoding of the rune it decodes to. -/
theorem canonical3 (p0 b1 b2 : Nat) (rest : List Nat) (h0 : 0xE0 ≤ p0) (h0' : p0 ≤ 0xEF)
    (h1 : 0x80 ≤ b1) (h1' : b1 ≤ 0xBF) (hE0 : p0 = 0xE0 → 0xA0 ≤ b1)
    (hED : p0 = 0xED → b1 ≤ 0x9F) (h2 : 0x80 ≤ b2) (h2' : b2 ≤ 0xBF) :
    DecodeRune (p0 :: b1 :: b2 :: rest) = (p0 % 16 * 4096 + b1 % 64 * 64 + b2 % 64, 3) ∧
      EncodeRune (p0 % 16 * 4096 + b1 % 64 * 64 + b2 % 64) = [p0, b1, b2] := by
  have hf := first_three p0 h0 h0'
  have hx : first p0 < as ∧ first p0 &&& 7 = 3 ∧
      (acceptRanges (first p0 >>> 4)).1 ≤ b1 ∧ b1 ≤ (acceptRanges (first p0 >>> 4)).2 := by
    rw [hf]
    by_cases hA : p0 = 0xE0
    · rw [if_pos hA]
      refine ⟨by decide, by decide, ?_, ?_⟩
      · show 0xA0 ≤ _; exact hE0 hA
      · show _ ≤ 0xBF; omega
    · rw [if_neg hA]
      by_cases hB : p0 = 0xED
      · rw [if_pos hB]
        refine ⟨by decide, by decide, ?_, ?_⟩
        · show 0x80 ≤ _; omega
        · show _ ≤ 0x9F; exact hED hB
      · rw [if_neg hB]
        refine ⟨by decide, by decide, ?_, ?_⟩
        · show 0x80 ≤ _; omega
        · show _ ≤ 0xBF; omega
  refine ⟨DecodeRune_sz3 p0 b1 b2 rest hx.1 hx.2.1 hx.2.2.1 hx.2.2.2 (by unfold locb; omega)
    (by unfold hicb; omega), ?_⟩
  have hE0' : p0 = 0xE0 → 0xA0 ≤ b1 := hE0
  have hED' : p0 = 0xED → b1 ≤ 0x9F := hED
  rw [EncodeRune_three _ (by omega) (by omega) (by omega)]
  congr 1
  · omega
  · congr 1
    · omega
    · congr 1; omega

/-- A valid four-byte sequence is the encoding of the rune it decodes to. -/
theorem canonical4 (p0 b1 b2 b3 : Nat) (rest : List Nat) (h0 : 0xF0 ≤ p0) (h0' : p0 ≤ 0xF4)
    (h1 : 0x80 ≤ b1) (h1' : b1 ≤ 0xBF) (hF0 : p0 = 0xF0 → 0x90 ≤ b1)
    (hF4 : p0 = 0xF4 → b1 ≤ 0x8F) (h2 : 0x80 ≤ b2) (h2' : b2 ≤ 0xBF)
    (h3 : 0x80 ≤ b3) (h3' : b3 ≤ 0xBF) :
    DecodeRune (p0 :: b1 :: b2 :: b3 :: rest) =
        (p0 % 8 * 262144 + b1 % 64 * 4096 + b2 % 64 * 64 + b3 % 64, 4) ∧
      EncodeRune (p0 % 8 * 262144 + b1 % 64 * 4096 + b2 % 64 * 64 + b3 % 64) =
        [p0, b1, b2, b3] := by
  have hf := first_four p0 h0 h0'
  have hx : first p0 < as ∧ first p0 &&& 7 = 4 ∧
      (acceptRanges (first p0 >>> 4)).1 ≤ b1 ∧ b1 ≤ (acceptRanges (first p0 >>> 4)).2 := by
    rw [hf]
    by_cases hA : p0 = 0xF0
    · rw [if_pos hA]
      refine ⟨by decide, by decide, ?_, ?_⟩
      · show 0x90 ≤ _; exact hF0 hA
      · show _ ≤ 0xBF; omega
    · rw [if_neg hA]
      by_cases hB : p0 = 0xF4
      · rw [if_pos hB]
        refine ⟨by decide, by decide, ?_, ?_⟩
        · show 0x80 ≤ _; omega
        · show _ ≤ 0x8F; exact hF4 hB
      · rw [if_neg hB]
        refine ⟨by decide, by decide, ?_, ?_⟩
        · show 0x80 ≤ _; omega
        · show _ ≤ 0xBF; omega
  refine ⟨DecodeRune_sz4 p0 b1 b2 b3 rest hx.1 hx.2.1 hx.2.2.1 hx.2.2.2 (by unfold locb; omega)
    (by unfold hicb; omega) (by unfold locb; omega) (by unfold hicb; omega), ?_⟩
  have hF0' : p0 = 0xF0 → 0x90 ≤ b1 := hF0
  have hF4' : p0 = 0xF4 → b1 ≤ 0x8F := hF4
  rw [EncodeRune_four _ (by omega) (by omega)]
  congr 1
  · omega
  · congr 1
    · omega
    · congr 1
      · omega
      · congr 1; omega

/-- A multi-byte decode that does not yield `RuneError` has consumed exactly the
UTF-8 encoding of the rune it returns. -/
theorem DecodeRune_canonical (p : List Nat) (h80 : 0x80 ≤ p.getD 0 0)
    (hr : (DecodeRune p).1 ≠ RuneError) :
    p.take (DecodeRune p).2 = EncodeRune (DecodeRune p).1 := by
  obtain ⟨hx, hlen, hlo, hhi, h2, h3⟩ := DecodeRune_shape p h80 hr
  by_cases h256 : 256 ≤ p.getD 0 0
  · rw [first_of_ge _ h256] at hx
    exact absurd hx (by decide)
  · have hfc := first_cases (p.getD 0 0) (by omega)
    by_cases hC2 : p.getD 0 0 < 0xC2
    · rw [if_neg (by omega), if_pos hC2] at hfc
      rw [hfc] at hx
      exact absurd hx (by decide)
    · by_cases hE0 : p.getD 0 0 < 0xE0
      · have hf := first_two (p.getD 0 0) (by omega) (by omega)
        rw [hf] at hlen hlo hhi
        have e1 : (0x02 : Nat) &&& 7 = 2 := by decide
        have e2 : acceptRanges (0x02 >>> 4) = (0x80, 0xBF) := rfl
        rw [e1] at hlen
        rw [e2] at hlo hhi
        obtain ⟨a, b, t, rfl⟩ : ∃ a b t, p = a :: b :: t := ⟨_, _, _, list_two p hlen⟩
        simp only [List.getD_cons_zero, List.getD_cons_succ] at hlo hhi hC2 hE0
        obtain ⟨hd, he⟩ := canonical2 a b t (by omega) (by omega) hlo hhi
        rw [hd, he]
        rfl
      · by_cases hF0 : p.getD 0 0 < 0xF0
        · have hf := first_three (p.getD 0 0) (by omega) (by omega)
          have key : first (p.getD 0 0) &&& 7 = 3 ∧ 0x80 ≤ p.getD 1 0 ∧ p.getD 1 0 ≤ 0xBF ∧
              (p.getD 0 0 = 0xE0 → 0xA0 ≤ p.getD 1 0) ∧
              (p.getD 0 0 = 0xED → p.getD 1 0 ≤ 0x9F) := by
            rw [hf] at hlo hhi ⊢
            by_cases hA : p.getD 0 0 = 0xE0
            · rw [if_pos hA] at hlo hhi ⊢
              have e2 : acceptRanges (0x13 >>> 4) = (0xA0, 0xBF) := rfl
              rw [e2] at hlo hhi
              exact ⟨by decide, by omega, hhi, fun _ => hlo, fun h => by omega⟩
            · rw [if_neg hA] at hlo hhi ⊢
              by_cases hB : p.getD 0 0 = 0xED
              · rw [if_pos hB] at hlo hhi ⊢
                have e2 : acceptRanges (0x23 >>> 4) = (0x80, 0x9F) := rfl
                rw [e2] at hlo hhi
                exact ⟨by decide, hlo, by omega, fun h => absurd h hA, fun _ => hhi⟩
              · rw [if_neg hB] at hlo hhi ⊢
                have e2 : acceptRanges (0x03 >>> 4) = (0x80, 0xBF) := rfl
                rw [e2] at hlo hhi
                exact ⟨by decide, hlo, hhi, fun h => absurd h hA, fun h => absurd h hB⟩
          obtain ⟨ksz, k1, k1', kE0, kED⟩ := key
          rw [ksz] at hlen h2
          have h2' := h2 (by omega)
          obtain ⟨a, b, c, t, rfl⟩ : ∃ a b c t, p = a :: b :: c :: t :=
            ⟨_, _, _, _, list_three p hlen⟩
          simp only [List.getD_cons_zero, List.getD_cons_succ] at k1 k1' kE0 kED h2' hE0 hF0
          obtain ⟨hd, he⟩ := canonical3 a b c t (by omega) (by omega) k1 k1' kE0 kED h2'.1 h2'.2
          rw [hd, he]
          rfl
        · by_cases hF5 : p.getD 0 0 < 0xF5
          · have hf := first_four (p.getD 0 0) (by omega) (by omega)
            have key : first (p.getD 0 0) &&& 7 = 4 ∧ 0x80 ≤ p.getD 1 0 ∧ p.getD 1 0 ≤ 0xBF ∧
                (p.getD 0 0 = 0xF0 → 0x90 ≤ p.getD 1 0) ∧
                (p.getD 0 0 = 0xF4 → p.getD 1 0 ≤ 0x8F) := by
              rw [hf] at hlo hhi ⊢
              by_cases hA : p.getD 0 0 = 0xF0
              · rw [if_pos hA] at hlo hhi ⊢
                have e2 : acceptRanges (0x34 >>> 4) = (0x90, 0xBF) := rfl
                rw [e2] at hlo hhi
                exact ⟨by decide, by omega, hhi, fun _ => hlo, fun h => by omega⟩
              · rw [if_neg hA] at hlo hhi ⊢
                by_cases hB : p.getD 0 0 = 0xF4
                · rw [if_pos hB] at hlo hhi ⊢
                  have e2 : acceptRanges (0x44 >>> 4) = (0x80, 0x8F) := rfl
                  rw [e2] at hlo hhi
                  exact ⟨by decide, hlo, by omega, fun h => absurd h hA, fun _ => hhi⟩
                · rw [if_neg hB] at hlo hhi ⊢
                  have e2 : acceptRanges (0x04 >>> 4) = (0x80, 0xBF) := rfl
                  rw [e2] at hlo hhi
                  exact ⟨by decide, hlo, hhi, fun h => absurd h hA, fun h => absurd h hB⟩
            obtain ⟨ksz, k1, k1', kF0, kF4⟩ := key
            rw [ksz] at hlen h2 h3
            have h2' := h2 (by omega)
            have h3' := h3 (by omega)
            obtain ⟨a, b, c, d, t, rfl⟩ : ∃ a b c d t, p = a :: b :: c :: d :: t :=
              ⟨_, _, _, _, _, list_four p hlen⟩
            simp only [List.getD_cons_zero, List.getD_cons_succ] at k1 k1' kF0 kF4 h2' h3' hF0 hF5
            obtain ⟨hd, he⟩ := canonical4 a b c d t (by omega) (by omega) k1 k1' kF0 kF4
              h2'.1 h2'.2 h3'.1 h3'.2
            rw [hd, he]
            rfl
          · rw [if_neg (by omega), if_neg (by omega), if_neg (by omega), if_neg (by omega),
              if_neg (by omega), if_neg (by omega), if_neg (by omega), if_neg (by omega),
              if_neg (by omega)] at hfc
            rw [hfc] at hx
            exact absurd hx (by decide)

/-! ## Invariants of the cursor along a session -/

/-- A `ScanAll` that returns has run the loop on the zero-valued tokens of
`make`. -/
theorem ScanAll_inv (s : Scanner) (toks : List Token) (flag : Bool) (fin : Scanner)
    (h : s.ScanAll = some (.ok (toks, flag, fin))) :
    ∃ res, scanLoop (loopFuel s) s res = some (.ok (toks, fin)) ∧
      ∀ t ∈ res, t = { Rune := 0, Start := 0, End := 0, Buffer := none } := by
  unfold Scanner.ScanAll Scanner.ScanAllFuel at h
  cases hm : makeTokens s.Cursor.End with
  | error e =>
    rw [hm] at h
    cases h
  | ok res =>
    rw [hm] at h
    simp only [] at h
    obtain ⟨-, -, hres⟩ := makeTokens_inv _ _ hm
    refine ⟨res, ?_, fun t ht => by
      rw [hres] at ht
      exact (List.mem_replicate.1 ht).2⟩
    cases hl : scanLoop (loopFuel s) s res with
    | none => rw [hl] at h; cases h
    | some r =>
      rw [hl] at h
      cases r with
      | error e => cases h
      | ok q =>
        obtain ⟨toks1, s1⟩ := q
        simp only [] at h
        split_ifs at h <;> cases h <;> rfl

/-- A `Scan` keeps the cursor within the buffer. -/
theorem Scan_End_bound (s : Scanner) (b : Bool) (s1 : Scanner)
    (hlen : (s.Buffer.length : Int) ≤ maxInt) (hle : s.Cursor.End ≤ (s.Buffer.length : Int))
    (hs : s.Scan = .ok (b, s1)) :
    s1.Buffer = s.Buffer ∧ s1.Cursor.End ≤ (s.Buffer.length : Int) := by
  cases b with
  | false =>
    obtain ⟨h1, h2⟩ := Scan_false_frame s s1 hs
    exact ⟨h1, by rw [h2]; exact hle⟩
  | true =>
    obtain ⟨h1, -, -, -, -, h2⟩ := Scan_true_advance s s1 hlen hs
    exact ⟨h1, h2⟩

theorem take_one_drop (buf : List Nat) (n : Nat) (h : n < buf.length) :
    (buf.drop n).take 1 = [buf.getD n 0] := by
  have hg := getD_drop_zero buf n
  cases hd : buf.drop n with
  | nil =>
    have := congrArg List.length hd
    simp at this
    omega
  | cons x rest =>
    rw [hd] at hg
    simp only [List.getD_cons_zero] at hg
    rw [← hg]
    rfl

/-- A `Scan` from a character boundary ends on a character boundary. -/
theorem Scan_onBoundary (s : Scanner) (b : Bool) (s1 : Scanner)
    (hlen : (s.Buffer.length : Int) ≤ maxInt) (hbd : onBoundary s.Buffer s.Cursor)
    (hs : s.Scan = .ok (b, s1)) :
    s1.Buffer = s.Buffer ∧ onBoundary s.Buffer s1.Cursor := by
  have h0 : 0 ≤ s.Cursor.End := by
    rcases hbd with hz | hz
    · rw [hz]; decide
    · omega
  by_cases hend : s.Cursor.End ≥ (s.Buffer.length : Int)
  · rw [Scan_at_end s hend] at hs
    cases hs
    exact ⟨rfl, hbd⟩
  · have h1 : s.Cursor.End < (s.Buffer.length : Int) := by omega
    rw [Scan_inside s h0 h1] at hs
    by_cases hb : s.Buffer.getD s.Cursor.End.toNat 0 ≥ RuneSelf
    · rw [if_pos hb] at hs
      by_cases hr : (DecodeRune (s.Buffer.drop s.Cursor.End.toNat)).1 = RuneError
      · rw [if_pos hr] at hs
        cases hs
        exact ⟨rfl, hbd⟩
      · rw [if_neg hr] at hs
        cases hs
        have h80 : 0x80 ≤ (s.Buffer.drop s.Cursor.End.toNat).getD 0 0 := by
          rw [getD_drop_zero]; exact hb
        have hsz := DecodeRune_size _ h80 hr
        have hcan := DecodeRune_canonical _ h80 hr
        rw [List.length_drop] at hsz
        refine ⟨rfl, Or.inr ?_⟩
        have hw : addInt s.Cursor.End ((DecodeRune (s.Buffer.drop s.Cursor.End.toNat)).2 : Int) =
            s.Cursor.End + ((DecodeRune (s.Buffer.drop s.Cursor.End.toNat)).2 : Int) := by
          unfold addInt
          rw [wrapInt_id _ (by unfold minInt; omega) (by omega)]
        simp only [hw]
        refine ⟨h0, by omega, by omega, by omega, by omega, Int.ofNat_nonneg _, ?_, ?_⟩
        · intro hcast
          exact hr (Int.ofNat.inj hcast)
        · have e1 : (s.Cursor.End + ((DecodeRune (s.Buffer.drop s.Cursor.End.toNat)).2 : Int) -
              s.Cursor.End).toNat = (DecodeRune (s.Buffer.drop s.Cursor.End.toNat)).2 := by
            omega
          rw [e1, Int.toNat_ofNat]
          exact hcan
    · rw [if_neg hb] at hs
      cases hs
      have hlt : s.Buffer.getD s.Cursor.End.toNat 0 < 0x80 := by
        unfold RuneSelf at hb; omega
      refine ⟨rfl, Or.inr ?_⟩
      have hw : addInt s.Cursor.End 1 = s.Cursor.End + 1 := by
        unfold addInt
        rw [wrapInt_id _ (by unfold minInt; omega) (by omega)]
      simp only [hw]
      refine ⟨h0, by omega, by omega, by omega, by omega, Int.ofNat_nonneg _, ?_, ?_⟩
      · unfold RuneError
        omega
      · have e1 : (s.Cursor.End + 1 - s.Cursor.End).toNat = 1 := by omega
        rw [e1, Int.toNat_ofNat, EncodeRune_one _ hlt]
        exact take_one_drop _ _ (by omega)

/-- One call keeps the buffer and keeps `Cursor.End` within it, when a `Goto` is
to a token whose `End` is within the buffer. -/
theorem step_End_bound (buf : List Nat) (hlen : (buf.length : Int) ≤ maxInt)
    (σ σ1 : Session) (op : Op) (hB : σ.scanner.Buffer = buf)
    (hE : σ.scanner.Cursor.End ≤ (buf.length : Int))
    (hop : ∀ t, op = Op.Goto t → t.End ≤ (buf.length : Int))
    (h : σ.step op = some σ1) :
    σ1.scanner.Buffer = buf ∧ σ1.scanner.Cursor.End ≤ (buf.length : Int) := by
  cases op with
  | Scan =>
    simp only [Session.step] at h
    cases hs : σ.scanner.Scan with
    | error e => rw [hs] at h; cases h
    | ok p =>
      obtain ⟨b, s1⟩ := p
      rw [hs] at h
      cases h
      obtain ⟨h1, h2⟩ := Scan_End_bound σ.scanner b s1 (by rw [hB]; exact hlen)
        (by rw [hB]; exact hE) hs
      rw [hB] at h1 h2
      exact ⟨h1, h2⟩
  | ScanAll =>
    simp only [Session.step] at h
    cases hs : σ.scanner.ScanAll with
    | none => rw [hs] at h; cases h
    | some r =>
      cases r with
      | error e => rw [hs] at h; cases h
      | ok q =>
        obtain ⟨toks, flag, s1⟩ := q
        rw [hs] at h
        cases h
        obtain ⟨res, hl, -⟩ := ScanAll_inv σ.scanner toks flag s1 hs
        exact (scanLoop_invariant
          (fun x => x.Buffer = buf ∧ x.Cursor.End ≤ (buf.length : Int)) (fun _ => True)
          (fun x b x1 hx hsx => by
            obtain ⟨hx1, hx2⟩ := hx
            obtain ⟨h1, h2⟩ := Scan_End_bound x b x1 (by rw [hx1]; exact hlen)
              (by rw [hx1]; exact hx2) hsx
            rw [hx1] at h1 h2
            exact ⟨h1, h2⟩)
          (fun _ _ => trivial) (loopFuel σ.scanner) σ.scanner res toks s1 ⟨hB, hE⟩
          (fun _ _ => trivial) hl).1
  | Peek v =>
    simp only [Session.step] at h
    cases hs : σ.scanner.Peek v with
    | error e => rw [hs] at h; cases h
    | ok b =>
      rw [hs] at h
      cases h
      exact ⟨hB, hE⟩
  | Reset =>
    simp only [Session.step] at h
    cases h
    exact ⟨hB, Int.ofNat_nonneg _⟩
  | Goto t =>
    simp only [Session.step] at h
    cases h
    exact ⟨hB, hop t rfl⟩
  | Token =>
    simp only [Session.step] at h
    cases h
    exact ⟨hB, hE⟩

/-- A sequence of calls keeps `Cursor.End` within the buffer, when every `Goto`
is to a token whose `End` is within the buffer. -/
theorem run_End_bound (buf : List Nat) (hlen : (buf.length : Int) ≤ maxInt) (ops : List Op) :
    ∀ (σ σ1 : Session), σ.scanner.Buffer = buf →
      σ.scanner.Cursor.End ≤ (buf.length : Int) → gotosInBounds buf ops = true →
      σ.run ops = some σ1 →
      σ1.scanner.Buffer = buf ∧ σ1.scanner.Cursor.End ≤ (buf.length : Int) := by
  induction ops with
  | nil =>
    intro σ σ1 hB hE _ h
    cases h
    exact ⟨hB, hE⟩
  | cons op rest ih =>
    intro σ σ1 hB hE hg h
    simp only [gotosInBounds, List.all_cons, Bool.and_eq_true] at hg
    obtain ⟨hg1, hg2⟩ := hg
    simp only [Session.run] at h
    cases hs : σ.step op with
    | none => rw [hs] at h; cases h
    | some σ2 =>
      rw [hs] at h
      obtain ⟨h1, h2⟩ := step_End_bound buf hlen σ σ2 op hB hE (by
        intro t ht
        subst ht
        simpa using hg1) hs
      exact ih σ2 σ1 h1 h2 hg2 h

/-- Claim C13 as amended: in every state reached from the scanner `New` returns
through any sequence of `Scan`, `ScanAll`, `Peek`, `Reset`, `Token` and
`Goto(t)` for tokens `t` with `t.End <= len(Buffer)`, the buffer is the one read
by `New` and `Cursor.End <= len(Buffer)`. -/
theorem Cursor_End_within_Buffer (buf : List Nat) (ops : List Op) (σ : Session)
    (hlen : (buf.length : Int) ≤ maxInt) (hg : gotosInBounds buf ops = true)
    (hrun : (Session.start buf).run ops = some σ) :
    σ.scanner.Buffer = buf ∧ σ.scanner.Cursor.End ≤ (σ.scanner.Buffer.length : Int) := by
  obtain ⟨h1, h2⟩ := run_End_bound buf hlen ops (Session.start buf) σ rfl
    (Int.ofNat_nonneg _) hg hrun
  exact ⟨h1, by rw [h1]; exact h2⟩

/-- Claim C13 as amended, on `"ab"`: scan twice, go back to the token `a 0:1`,
peek, drain with `ScanAll`, reset and scan; the cursor ends at offset 1. -/
theorem Cursor_End_within_Buffer_witness :
    ∃ σ, (Session.start [0x61, 0x62]).run
        [Op.Scan, Op.Scan, Op.Goto { Rune := 0x61, Start := 0, End := 1, Buffer := none },
         Op.Peek [0x62], Op.ScanAll, Op.Reset, Op.Scan] = some σ ∧
      σ.scanner.Cursor = ⟨0x61, 0, 1⟩ ∧
      σ.scanner.Buffer = [0x61, 0x62] ∧
      σ.scanner.Cursor.End ≤ (σ.scanner.Buffer.length : Int) :=
  ⟨{ scanner := { Buffer := [0x61, 0x62], Errors := [], Cursor := ⟨0x61, 0, 1⟩ },
     emitted := [{ Rune := 0, Start := 0, End := 0, Buffer := none },
                 { Rune := 0x62, Start := 1, End := 2, Buffer := some [0x61, 0x62] }] },
   rfl, rfl,
   Cursor_End_within_Buffer [0x61, 0x62]
    [Op.Scan, Op.Scan, Op.Goto { Rune := 0x61, Start := 0, End := 1, Buffer := none },
     Op.Peek [0x62], Op.ScanAll, Op.Reset, Op.Scan]
    { scanner := { Buffer := [0x61, 0x62], Errors := [], Cursor := ⟨0x61, 0, 1⟩ },
      emitted := [{ Rune := 0, Start := 0, End := 0, Buffer := none },
                  { Rune := 0x62, Start := 1, End := 2, Buffer := some [0x61, 0x62] }] }
    (by decide) (by decide) rfl⟩

/-- Claim C13 as stated fails: on the empty buffer, `Goto` to a token with
`End = 1` leaves `Cursor.End = 1 > 0 = len(Buffer)`. -/
theorem Cursor_End_within_Buffer_counterexample :
    ∃ σ, (Session.start []).run
        [Op.Goto { Rune := 0, Start := 0, End := 1, Buffer := none }] = some σ ∧
      ¬ σ.scanner.Cursor.End ≤ (σ.scanner.Buffer.length : Int) :=
  ⟨{ scanner := { Buffer := [], Errors := [], Cursor := ⟨0, 0, 1⟩ }, emitted := [] }, rfl,
    by decide⟩

/-- What `gotosEmitted` says about the first call and about the rest. -/
theorem gotosEmitted_cons (σ : Session) (op : Op) (rest : List Op)
    (h : gotosEmitted σ (op :: rest) = true) :
    (∀ t, op = Op.Goto t → t ∈ σ.emitted) ∧
      (∀ σ1, σ.step op = some σ1 → gotosEmitted σ1 rest = true) := by
  simp only [gotosEmitted, Bool.and_eq_true] at h
  obtain ⟨h1, h2⟩ := h
  constructor
  · intro t ht
    subst ht
    simpa using h1
  · intro σ1 hs
    rw [hs] at h2
    exact h2

/-- One call keeps the cursor, and every token handed out, on a character
boundary, when a `Goto` is to a token handed out before. -/
theorem step_onBoundary (buf : List Nat) (hlen : (buf.length : Int) ≤ maxInt)
    (σ σ1 : Session) (op : Op) (hB : σ.scanner.Buffer = buf)
    (hC : onBoundary buf σ.scanner.Cursor)
    (hEm : ∀ t ∈ σ.emitted, onBoundary buf t.Position)
    (hop : ∀ t, op = Op.Goto t → t ∈ σ.emitted)
    (h : σ.step op = some σ1) :
    σ1.scanner.Buffer = buf ∧ onBoundary buf σ1.scanner.Cursor ∧
      ∀ t ∈ σ1.emitted, onBoundary buf t.Position := by
  have hScan : ∀ (x : Scanner) (b : Bool) (x1 : Scanner),
      (x.Buffer = buf ∧ onBoundary buf x.Cursor) → x.Scan = .ok (b, x1) →
      (x1.Buffer = buf ∧ onBoundary buf x1.Cursor) := by
    intro x b x1 hx hsx
    obtain ⟨hx1, hx2⟩ := hx
    obtain ⟨h1, h2⟩ := Scan_onBoundary x b x1 (by rw [hx1]; exact hlen)
      (by rw [hx1]; exact hx2) hsx
    rw [hx1] at h1 h2
    exact ⟨h1, h2⟩
  cases op with
  | Scan =>
    simp only [Session.step] at h
    cases hs : σ.scanner.Scan with
    | error e => rw [hs] at h; cases h
    | ok p =>
      obtain ⟨b, s1⟩ := p
      rw [hs] at h
      cases h
      obtain ⟨h1, h2⟩ := hScan σ.scanner b s1 ⟨hB, hC⟩ hs
      exact ⟨h1, h2, hEm⟩
  | ScanAll =>
    simp only [Session.step] at h
    cases hs : σ.scanner.ScanAll with
    | none => rw [hs] at h; cases h
    | some r =>
      cases r with
      | error e => rw [hs] at h; cases h
      | ok q =>
        obtain ⟨toks, flag, s1⟩ := q
        rw [hs] at h
        cases h
        obtain ⟨res, hl, hres⟩ := ScanAll_inv σ.scanner toks flag s1 hs
        obtain ⟨⟨h1, h2⟩, h3⟩ := scanLoop_invariant
          (fun x => x.Buffer = buf ∧ onBoundary buf x.Cursor)
          (fun t => onBoundary buf t.Position) hScan
          (fun x hx => hx.2) (loopFuel σ.scanner) σ.scanner res toks s1 ⟨hB, hC⟩
          (fun t ht => by
            rw [hres t ht]
            exact Or.inl rfl) hl
        refine ⟨h1, h2, ?_⟩
        intro t ht
        rcases List.mem_append.1 ht with h' | h'
        · exact hEm t h'
        · exact h3 t h'
  | Peek v =>
    simp only [Session.step] at h
    cases hs : σ.scanner.Peek v with
    | error e => rw [hs] at h; cases h
    | ok b =>
      rw [hs] at h
      cases h
      exact ⟨hB, hC, hEm⟩
  | Reset =>
    simp only [Session.step] at h
    cases h
    exact ⟨hB, Or.inl rfl, hEm⟩
  | Goto t =>
    simp only [Session.step] at h
    cases h
    exact ⟨hB, hEm t (hop t rfl), hEm⟩
  | Token =>
    simp only [Session.step] at h
    cases h
    refine ⟨hB, hC, ?_⟩
    intro t ht
    rcases List.mem_append.1 ht with h' | h'
    · exact hEm t h'
    · rw [List.mem_singleton] at h'
      rw [h']
      exact hC

/-- A sequence of calls keeps the cursor on a character boundary, when every
`Goto` is to a token handed out before. -/
theorem run_onBoundary (buf : List Nat) (hlen : (buf.length : Int) ≤ maxInt) (ops : List Op) :
    ∀ (σ σ1 : Session), σ.scanner.Buffer = buf → onBoundary buf σ.scanner.Cursor →
      (∀ t ∈ σ.emitted, onBoundary buf t.Position) → gotosEmitted σ ops = true →
      σ.run ops = some σ1 →
      σ1.scanner.Buffer = buf ∧ onBoundary buf σ1.scanner.Cursor ∧
        ∀ t ∈ σ1.emitted, onBoundary buf t.Position := by
  induction ops with
  | nil =>
    intro σ σ1 hB hC hEm _ h
    cases h
    exact ⟨hB, hC, hEm⟩
  | cons op rest ih =>
    intro σ σ1 hB hC hEm hg h
    obtain ⟨hg1, hg2⟩ := gotosEmitted_cons σ op rest hg
    simp only [Session.run] at h
    cases hs : σ.step op with
    | none => rw [hs] at h; cases h
    | some σ2 =>
      rw [hs] at h
      obtain ⟨h1, h2, h3⟩ := step_onBoundary buf hlen σ σ2 op hB hC hEm hg1 hs
      exact ih σ2 σ1 h1 h2 h3 (hg2 σ2 hs) h

/-- Claim C14, the character-boundary invariant: in every state reached from
the scanner `New` returns through `Scan`, `ScanAll`, `Peek`, `Reset`, `Token`
and `Goto` to a token the scanner handed out before, the cursor is `Zero` or
satisfies `0 <= Start < End <= len(Buffer)`, `1 <= End - Start <= 4`,
`Rune != U+FFFD`, and `Buffer[Start:End]` is the UTF-8 encoding of `Rune`. -/
theorem cursor_on_character_boundary (buf : List Nat) (ops : List Op) (σ : Session)
    (hlen : (buf.length : Int) ≤ maxInt) (hg : gotosEmitted (Session.start buf) ops = true)
    (hrun : (Session.start buf).run ops = some σ) :
    σ.scanner.Buffer = buf ∧
    (σ.scanner.Cursor = Zero ∨
      (0 ≤ σ.scanner.Cursor.Start ∧ σ.scanner.Cursor.Start < σ.scanner.Cursor.End ∧
        σ.scanner.Cursor.End ≤ (σ.scanner.Buffer.length : Int) ∧
        1 ≤ σ.scanner.Cursor.End - σ.scanner.Cursor.Start ∧
        σ.scanner.Cursor.End - σ.scanner.Cursor.Start ≤ 4 ∧
        0 ≤ σ.scanner.Cursor.Rune ∧ σ.scanner.Cursor.Rune ≠ (RuneError : Int) ∧
        (σ.scanner.Buffer.drop σ.scanner.Cursor.Start.toNat).take
            (σ.scanner.Cursor.End - σ.scanner.Cursor.Start).toNat =
          EncodeRune σ.scanner.Cursor.Rune.toNat)) := by
  obtain ⟨h1, h2, -⟩ := run_onBoundary buf hlen ops (Session.start buf) σ rfl (Or.inl rfl)
    (fun t ht => by cases ht) hg hrun
  refine ⟨h1, ?_⟩
  rw [h1]
  exact h2

/-- Claim C14 on `"a"` followed by the three bytes of U+67F3 and `"b"`: scan
`a`, take its token, scan the three-byte character, go back to the token, and
scan again: the cursor spans `1:4`, the encoding of U+67F3. -/
theorem cursor_on_character_boundary_witness :
    ∃ σ, (Session.start [0x61, 0xE6, 0x9F, 0xB3, 0x62]).run
        [Op.Scan, Op.Token, Op.Scan,
         Op.Goto { Rune := 0x61, Start := 0, End := 1,
                   Buffer := some [0x61, 0xE6, 0x9F, 0xB3, 0x62] },
         Op.Scan] = some σ ∧
      σ.scanner.Cursor = ⟨0x67F3, 1, 4⟩ ∧
      (σ.scanner.Buffer.drop σ.scanner.Cursor.Start.toNat).take
          (σ.scanner.Cursor.End - σ.scanner.Cursor.Start).toNat =
        EncodeRune σ.scanner.Cursor.Rune.toNat := by
  have h := cursor_on_character_boundary [0x61, 0xE6, 0x9F, 0xB3, 0x62]
    [Op.Scan, Op.Token, Op.Scan,
     Op.Goto { Rune := 0x61, Start := 0, End := 1,
               Buffer := some [0x61, 0xE6, 0x9F, 0xB3, 0x62] },
     Op.Scan]
    { scanner := { Buffer := [0x61, 0xE6, 0x9F, 0xB3, 0x62], Errors := [],
                   Cursor := ⟨0x67F3, 1, 4⟩ },
      emitted := [{ Rune := 0x61, Start := 0, End := 1,
                    Buffer := some [0x61, 0xE6, 0x9F, 0xB3, 0x62] }] }
    (by decide) (by decide) rfl
  refine ⟨_, rfl, rfl, ?_⟩
  rcases h.2 with hz | hz
  · exact absurd hz (by decide)
  · exact hz.2.2.2.2.2.2.2

end scanner
